import Mathlib

/-!
Verification development for the Cubane block-rendering pipeline.

The definitions below are a shallow embedding of the TypeScript sources:
`ModelResolver` (blockstate resolution), `AssetLoader` (model inheritance,
liquid synthesis, texture indirection), `BlockMeshBuilder` (UV rotation)
and `AtlasBuilder` (texture packing).  JavaScript string operations
(`split`, `replace`, `startsWith`, `includes`, default `Array.sort`) are
modelled character-exactly on `String.data`; JavaScript objects and `Map`s
are modelled as association lists in insertion order.
-/

namespace Cubane

/-! ## JavaScript string primitives -/

/-- Model of `s.split(c)` for a single-character separator: splits at every
occurrence of the separator, keeping empty segments, and yields `[s]` when
the separator does not occur. -/
def splitChar (c : Char) : List Char → List (List Char)
  | [] => [[]]
  | x :: xs =>
      let r := splitChar c xs
      if x = c then [] :: r
      else
        match r with
        | [] => [[x]]
        | y :: ys => (x :: y) :: ys

/-- `String` wrapper for `splitChar`. -/
def jsSplit (c : Char) (s : String) : List String :=
  (splitChar c s.data).map (fun l => ⟨l⟩)

/-- Remove the first occurrence of `pat` from a character list, as in the
JavaScript call `s.replace(pat, "")` (string patterns replace only the
first occurrence). -/
def removeFirst (pat : List Char) : List Char → List Char
  | [] => []
  | x :: xs =>
      if pat.isPrefixOf (x :: xs) then (x :: xs).drop pat.length
      else x :: removeFirst pat xs

/-- Model of `s.replace(pat, "")`. -/
def jsRemoveFirst (pat s : String) : String := ⟨removeFirst pat.data s.data⟩

/-- Model of `s.replace("minecraft:", "")`, ubiquitous in the sources. -/
def stripMc (s : String) : String := jsRemoveFirst "minecraft:" s

/-- Model of `s.startsWith(p)`. -/
def jsStartsWith (p s : String) : Bool := p.data.isPrefixOf s.data

/-- Substring occurrence test on character lists. -/
def containsSub (pat : List Char) : List Char → Bool
  | [] => pat.isEmpty
  | x :: xs => pat.isPrefixOf (x :: xs) || containsSub pat xs

/-- Model of `s.includes(p)`. -/
def jsIncludes (p s : String) : Bool := containsSub p.data s.data

/-- Lexicographic comparison of character lists by code point, the order
used by JavaScript's default `Array.prototype.sort` on strings. -/
def charListLe : List Char → List Char → Bool
  | [], _ => true
  | _ :: _, [] => false
  | a :: as, b :: bs =>
      if a.toNat < b.toNat then true
      else if b.toNat < a.toNat then false
      else charListLe as bs

/-- Lexicographic string comparison (JavaScript default sort order). -/
def jsStrLe (a b : String) : Bool := charListLe a.data b.data

/-- The sort order as a decidable relation. -/
def strLeProp (a b : String) : Prop := jsStrLe a b = true

instance : DecidableRel strLeProp := fun a b => by
  unfold strLeProp; infer_instance

/-- Model of the default `Array.prototype.sort()` on an array of strings:
a sorted permutation of the input in lexicographic order (for a total
antisymmetric order all sorted permutations coincide, so stability is
irrelevant here). -/
def sortStr (l : List String) : List String := List.insertionSort strLeProp l

/-- Model of `arr.join(",")`. -/
def joinComma (l : List String) : String := String.intercalate "," l

/-- Numeric value of a digit string. -/
def digitsVal (l : List Char) : Nat :=
  l.foldl (fun a c => a * 10 + (c.toNat - '0'.toNat)) 0

/-- Model of `parseInt(s, 10)`: optional sign followed by a maximal digit
prefix; `none` models `NaN` (no digits found). -/
def jsParseInt (s : String) : Option Int :=
  let l := s.data.dropWhile (fun c => c = ' ')
  match l with
  | '-' :: rest =>
      let ds := rest.takeWhile Char.isDigit
      if ds = [] then none else some (-(digitsVal ds : Int))
  | '+' :: rest =>
      let ds := rest.takeWhile Char.isDigit
      if ds = [] then none else some (digitsVal ds : Int)
  | _ =>
      let ds := l.takeWhile Char.isDigit
      if ds = [] then none else some (digitsVal ds : Int)

/-! ## Data model (`types.ts`) -/

/-- A blockstate model reference: `{model, x?, y?, uvlock?}`.  The resolver
copies exactly these four fields (`createModelData`), so the same shape
serves as the resolved `ModelData`. -/
structure ModelRefData where
  model : String
  x : Option Int := none
  y : Option Int := none
  uvlock : Option Bool := none
deriving DecidableEq, Repr

/-- A variant value: a single model reference or a weighted list. -/
inductive VariantVal where
  | one (m : ModelRefData)
  | many (ms : List ModelRefData)
deriving DecidableEq, Repr

/-- A multipart `when` clause: `{OR: [conds]}` or a single condition map. -/
inductive Condition where
  | orCond (cs : List (List (String × String)))
  | andCond (c : List (String × String))
deriving DecidableEq, Repr

/-- One multipart rule `{when?, apply}`. -/
structure MultipartRule where
  when : Option Condition := none
  applyRef : VariantVal
deriving DecidableEq, Repr

/-- A blockstate definition `{variants?, multipart?}`; JavaScript objects
are modelled as association lists in key-insertion order. -/
structure BlockStateDefinition where
  variants : Option (List (String × VariantVal)) := none
  multipart : Option (List MultipartRule) := none
deriving DecidableEq, Repr

/-- A parsed block: bare name plus its ordered property map. -/
structure Block where
  name : String
  properties : List (String × String)
deriving DecidableEq, Repr

/-- One face of a model element: texture reference and optional cullface. -/
structure ElementFace where
  texture : String
  cullface : Option String := none
deriving DecidableEq, Repr

/-- One cuboid element of a model. -/
structure Element where
  efrom : Int × Int × Int
  eto : Int × Int × Int
  faces : List (String × ElementFace)
deriving DecidableEq, Repr

/-- A block model `{parent?, textures?, elements?}`.  `textures` is
`Option` so that an absent table (JavaScript `undefined`, which is falsy)
is distinguished from an empty one. -/
structure BlockModel where
  parent : Option String := none
  textures : Option (List (String × String)) := none
  elements : Option (List Element) := none
deriving DecidableEq, Repr

/-! ## ModelResolver (code side)

Shallow embedding of `ModelResolver.resolveBlockModel` and its helpers.
-/

/-- Names of properties appearing in any non-empty variant key: for each
key, split on `","`, then take the segment before the first `"="` of each
part (`validVariantProperties` in the source). -/
def validVariantProperties (vs : List (String × VariantVal)) : List String :=
  (vs.map Prod.fst).foldl
    (fun acc k =>
      if k = "" then acc
      else acc ++ (jsSplit ',' k).map (fun part => ((jsSplit '=' part).headD "")))
    []

/-- The `name=value` strings of the block properties that occur in some
variant key. -/
def filteredProps (vs : List (String × VariantVal))
    (props : List (String × String)) : List String :=
  (props.filter (fun p => decide (p.1 ∈ validVariantProperties vs))).map
    (fun p => p.1 ++ "=" ++ p.2)

/-- The variant key built from the block's properties: filtered to
variant-relevant names, sorted, comma-joined (empty when the block has no
properties at all). -/
def buildVariantKey (vs : List (String × VariantVal))
    (props : List (String × String)) : String :=
  if props = [] then ""
  else joinComma (sortStr (filteredProps vs props))

/-- Parse one `name=value` part of a variant key, as the source's
`prop.split("=")` destructuring: the name is the segment before the first
`"="` and the value is the second segment (`none` when there is none). -/
def parseVariantProp (part : String) : String × Option String :=
  let ps := jsSplit '=' part
  (ps.headD "", ps[1]?)

/-- Decompose a variant key into its `{name, value}` pairs. -/
def parseVariantKey (k : String) : List (String × Option String) :=
  (jsSplit ',' k).map parseVariantProp

/-- The source's inner matching loop over the block's properties: returns
`(allMatch, matchCount)`, breaking at the first property the variant key
specifies with a different value. -/
def evalKey (vprops : List (String × Option String)) :
    List (String × String) → Bool × Nat
  | [] => (true, 0)
  | (n, v) :: rest =>
      match vprops.find? (fun q => q.1 = n) with
      | some q =>
          if q.2 = some v then
            let r := evalKey vprops rest
            (r.1, r.2 + 1)
          else (false, 0)
      | none => evalKey vprops rest

/-- One step of the best-match fold over variant keys. -/
def bestKeyStep (props : List (String × String)) (acc : String × Int)
    (k : String) : String × Int :=
  if k = "" then acc
  else
    let r := evalKey (parseVariantKey k) props
    if r.1 ∧ (r.2 : Int) > acc.2 then (k, (r.2 : Int)) else acc

/-- The source's third approach: scan all variant keys, keeping the first
key that matches all requested properties with the highest match count
(initial state `("", -1)`). -/
def bestVariantKey (vs : List (String × VariantVal))
    (props : List (String × String)) : String :=
  ((vs.map Prod.fst).foldl (bestKeyStep props) ("", -1)).1

/-- The source's fourth approach: iterate the block's properties in
encounter order and look up the literal key `"{key}={value}"`. -/
def singlePropVariant (vs : List (String × VariantVal)) :
    List (String × String) → Option VariantVal
  | [] => none
  | (k, v) :: rest =>
      match List.lookup (k ++ "=" ++ v) vs with
      | some h => some h
      | none => singlePropVariant vs rest

/-- The full variant-selection cascade of `resolveBlockModel`
(lines 71–149 of the source). -/
def findVariant (vs : List (String × VariantVal))
    (props : List (String × String)) : Option VariantVal :=
  match List.lookup (buildVariantKey vs props) vs with
  | some v => some v
  | none =>
      match List.lookup "" vs with
      | some v => some v
      | none =>
          let bk := bestVariantKey vs props
          match (if bk ≠ "" then List.lookup bk vs else none) with
          | some v => some v
          | none =>
              match singlePropVariant vs props with
              | some v => some v
              | none => vs.head?.map Prod.snd

/-- `createModelData`: copy the four relevant fields of a model holder. -/
def createModelData (m : ModelRefData) : ModelRefData :=
  { model := m.model, x := m.x, y := m.y, uvlock := m.uvlock }

/-- Models contributed by one variant value: a single holder directly, a
weighted list through its first entry. -/
def holderModels : VariantVal → List ModelRefData
  | .one m => [createModelData m]
  | .many ms => (ms.head?.map createModelData).toList

/-- Models contributed by the `variants` section. -/
def variantModels (vs : List (String × VariantVal))
    (props : List (String × String)) : List ModelRefData :=
  match findVariant vs props with
  | none => []
  | some v => holderModels v

/-- `matchesCondition`: every condition entry must name a property the
block defines, whose value equals the expected value, or — when the
expected value contains `"|"` — is a member of the `|`-split set. -/
def matchesCondition (props : List (String × String)) :
    List (String × String) → Bool
  | [] => true
  | (p, v) :: rest =>
      match List.lookup p props with
      | none => false
      | some bv =>
          if jsIncludes "|" v then
            if bv ∈ jsSplit '|' v then matchesCondition props rest else false
          else if bv = v then matchesCondition props rest
          else false

/-- Whether one multipart rule applies: no `when` always applies, an `OR`
clause if any nested condition matches, a plain map if it matches. -/
def ruleApplies (props : List (String × String)) (r : MultipartRule) : Bool :=
  match r.when with
  | none => true
  | some (.orCond cs) => cs.any (matchesCondition props)
  | some (.andCond c) => matchesCondition props c

/-- Models contributed by the `multipart` section, in declaration order. -/
def multipartModels (props : List (String × String))
    (rules : List MultipartRule) : List ModelRefData :=
  rules.foldl
    (fun acc r => if ruleApplies props r then acc ++ holderModels r.applyRef else acc)
    []

/-- Whether a block name takes the liquid bypass in `resolveBlockModel`. -/
def liquidBlockName (name : String) : Prop :=
  name = "water" ∨ name = "flowing_water" ∨ name = "lava" ∨ name = "flowing_lava"

instance (name : String) : Decidable (liquidBlockName name) := by
  unfold liquidBlockName; infer_instance

/-- `createLiquidModelData`: one synthetic `ModelData` whose path encodes
the block's `level` property (`level` absent or empty string parses as 0;
a `NaN` parse is interpolated as the literal `"NaN"`). -/
def createLiquidModelData (b : Block) : List ModelRefData :=
  let isWater := jsIncludes "water" b.name
  let level : Option Int :=
    match List.lookup "level" b.properties with
    | none => some 0
    | some s => if s = "" then some 0 else jsParseInt s
  let modelPath :=
    match level with
    | some l =>
        if isWater then
          if l = 0 then "block/water" else "block/water_level_" ++ toString l
        else
          if l = 0 then "block/lava" else "block/lava_level_" ++ toString l
    | none =>
        if isWater then "block/water_level_NaN" else "block/lava_level_NaN"
  [{ model := modelPath, x := some 0, y := some 0, uvlock := some false }]

/-- `ModelResolver.resolveBlockModel`, with the blockstate store abstracted
as a lookup function (`AssetLoader.getBlockState` returns the empty
definition for a missing or unparseable file). -/
def resolveBlockModel (getBS : String → BlockStateDefinition) (b : Block) :
    List ModelRefData :=
  if liquidBlockName b.name then createLiquidModelData b
  else
    let bsd := getBS (stripMc b.name)
    match bsd.variants, bsd.multipart with
    | none, none => []
    | ovs, omp =>
        (match ovs with
         | some vs => variantModels vs b.properties
         | none => []) ++
        (match omp with
         | some mp => multipartModels b.properties mp
         | none => [])

/-! ## Blockstate resolution (spec side)

Definitions transcribed from the specification's description of variant
and multipart matching, to be compared with the code-side functions. -/

/-- Spec: the variant key is the block's properties restricted to names
appearing in any variant key, sorted lexicographically, comma-joined. -/
def specVariantKey (vs : List (String × VariantVal))
    (props : List (String × String)) : String :=
  joinComma (sortStr (filteredProps vs props))

/-- Spec: a requested property conflicts with a variant key when the key
specifies that property with a different value. -/
def conflictsB (vprops : List (String × Option String))
    (p : String × String) : Bool :=
  match vprops.find? (fun q => q.1 = p.1) with
  | some q => q.2 != some p.2
  | none => false

/-- Spec: a requested property explicitly agrees with a variant key when
the key specifies it with the same value. -/
def agreesB (vprops : List (String × Option String))
    (p : String × String) : Bool :=
  match vprops.find? (fun q => q.1 = p.1) with
  | some q => q.2 == some p.2
  | none => false

/-- Spec: a candidate variant key is valid when no requested property
conflicts with it (properties the key leaves unset are ignored). -/
def specValidKey (props : List (String × String)) (k : String) : Bool :=
  props.all (fun p => !(conflictsB (parseVariantKey k) p))

/-- Spec: the number of explicitly agreeing properties of a candidate. -/
def specAgreeCount (props : List (String × String)) (k : String) : Nat :=
  props.countP (agreesB (parseVariantKey k))

/-- First maximum of `f` over a list (earlier elements win ties). -/
def pickFirstMax (f : α → Nat) : List α → Option α
  | [] => none
  | x :: xs =>
      match pickFirstMax f xs with
      | none => some x
      | some b => if f b > f x then some b else some x

/-- Spec: best partial match — among the valid non-empty candidate keys,
the one with the highest agreement count, ties keeping the first in
key-enumeration order. -/
def specBestKey (vs : List (String × VariantVal))
    (props : List (String × String)) : Option String :=
  pickFirstMax (specAgreeCount props)
    ((vs.map Prod.fst).filter (fun k => k ≠ "" ∧ specValidKey props k))

/-- Spec: the strict fallback order of variant selection — exact key,
empty key, best partial match, first single-property literal hit in
property encounter order, first variant key in enumeration order. -/
def specSelectVariant (vs : List (String × VariantVal))
    (props : List (String × String)) : Option VariantVal :=
  (List.lookup (specVariantKey vs props) vs) <|>
  (List.lookup "" vs) <|>
  ((specBestKey vs props).bind (fun k => List.lookup k vs)) <|>
  (props.findSome? (fun p => List.lookup (p.1 ++ "=" ++ p.2) vs)) <|>
  (vs.head?.map Prod.snd)

/-- Spec: the models produced by the variants section — the selected
variant's model, index 0 when the variant value is a list. -/
def specVariantModels (vs : List (String × VariantVal))
    (props : List (String × String)) : List ModelRefData :=
  match specSelectVariant vs props with
  | none => []
  | some v => holderModels v

/-- Spec: a condition entry is satisfied when the block defines the
property and its value is a member of the `|`-split value set (for a value
without `|` the split set is the singleton, so membership is equality). -/
def specCondMatches (props : List (String × String))
    (cond : List (String × String)) : Bool :=
  cond.all (fun pe =>
    match List.lookup pe.1 props with
    | none => false
    | some bv => decide (bv ∈ jsSplit '|' pe.2))

/-- Spec: rule applicability — no `when` always applies, `OR` when some
nested condition map matches, otherwise the single condition map. -/
def specRuleApplies (props : List (String × String)) (r : MultipartRule) : Bool :=
  match r.when with
  | none => true
  | some (.orCond cs) => cs.any (specCondMatches props)
  | some (.andCond c) => specCondMatches props c

/-- Spec: every applying rule contributes its apply model (index 0 for a
list) in rule-declaration order. -/
def specMultipartModels (props : List (String × String))
    (rules : List MultipartRule) : List ModelRefData :=
  (rules.filter (specRuleApplies props)).flatMap (fun r => holderModels r.applyRef)

/-! ## AssetLoader: model inheritance, liquid synthesis, textures -/

/-- JavaScript object spread `{...a, ...b}` on string-keyed tables: the
keys of `a` in order with values overridden by `b`, followed by the keys
of `b` not present in `a`, in `b`'s order. -/
def spreadMerge (a b : List (String × String)) : List (String × String) :=
  (a.map (fun kv =>
    match List.lookup kv.1 b with
    | some v => (kv.1, v)
    | none => kv)) ++
  b.filter (fun kv => (List.lookup kv.1 a).isNone)

/-- One hop of the parent merge: `{...parent, ...child}` with `textures`
spread-merged (child overriding) and `elements` taken from the child when
present (a present empty list counts as present, as in JavaScript where
`[]` is truthy), else inherited. -/
def mergeOnce (parentM cur : BlockModel) : BlockModel :=
  { parent := cur.parent,
    textures := some (spreadMerge (parentM.textures.getD []) (cur.textures.getD [])),
    elements := cur.elements <|> parentM.elements }

/-- The `while (parentPath && depth < MAX_DEPTH)` loop of
`loadAndMergeModel`, with remaining fuel `MAX_DEPTH - depth`: strip the
namespace from the pending parent path, stop when the parent file is
missing, otherwise merge and continue with the parent's own parent. -/
def mergeParentsLoop (store : String → Option BlockModel) :
    Nat → BlockModel → String → BlockModel
  | 0, cur, _ => cur
  | fuel + 1, cur, pPath =>
      if pPath = "" then cur
      else
        match store (stripMc pPath) with
        | none => cur
        | some parentM =>
            mergeParentsLoop store fuel (mergeOnce parentM cur)
              (parentM.parent.getD "")

/-- `AssetLoader.loadAndMergeModel`: resolve the parent chain for up to 5
hops and delete the `parent` key afterwards.  A falsy parent (`none` or
the empty string) returns the model unchanged. -/
def loadAndMergeModel (store : String → Option BlockModel)
    (model : BlockModel) : BlockModel :=
  match model.parent with
  | none => model
  | some p =>
      if p = "" then model
      else { mergeParentsLoop store 5 model p with parent := none }

/-- Whether a string starts with `'#'`. -/
def startsWithHash (s : String) : Bool :=
  match s.data with
  | '#' :: _ => true
  | _ => false

/-- One lookup step of texture-reference resolution:
`ref = model.textures[key] || ref` (an empty-string value is falsy and
leaves the reference unchanged). -/
def texStep (txs : List (String × String)) (ref : String) : String :=
  match List.lookup (⟨ref.data.drop 1⟩ : String) txs with
  | some v => if v = "" then ref else v
  | none => ref

/-- The bounded lookup loop of `resolveTexture`: at most `fuel` lookups
while the reference still starts with `'#'`; returns the final reference
and the number of lookups performed. -/
def texLoopF (txs : List (String × String)) : Nat → String → String × Nat
  | 0, ref => (ref, 0)
  | fuel + 1, ref =>
      if startsWithHash ref then
        let r := texLoopF txs fuel (texStep txs ref)
        (r.1, r.2 + 1)
      else (ref, 0)

/-- `AssetLoader.resolveTexture`: sentinel for `"#missing"` or an empty
reference, non-`#` literals returned namespace-stripped, `#` references
resolved through the model's texture table with a depth bound of 5, depth
exhaustion (or a model without a texture table) yielding the sentinel. -/
def resolveTexture (ref : String) (model : BlockModel) : String :=
  if ref = "" ∨ ref = "#missing" then "block/missing_texture"
  else if ¬ startsWithHash ref then stripMc ref
  else
    match model.textures with
    | none => "block/missing_texture"
    | some txs =>
        let r := texLoopF txs 5 ref
        if 5 ≤ r.2 ∨ startsWithHash r.1 then "block/missing_texture"
        else stripMc r.1

/-- Scanner for the regular expression `/_level_(\d+)/`: the first
position where `"_level_"` is followed by at least one digit, returning
the value of the maximal digit run. -/
def findLevelAux : List Char → Option Nat
  | [] => none
  | c :: rest =>
      if "_level_".data.isPrefixOf (c :: rest) then
        let ds := ((c :: rest).drop 7).takeWhile Char.isDigit
        if ds = [] then findLevelAux rest else some (digitsVal ds)
      else findLevelAux rest

/-- Level extracted from a liquid model path. -/
def findLevelSuffix (s : String) : Option Nat := findLevelAux s.data

/-- The liquid model synthesized by `AssetLoader.getModel`: a single
cuboid `[0,0,0]–[16,height,16]`, still texture on top/bottom/particle
(and `all`), flow texture on the four sides, each face cullfaced by its
own direction. -/
def syntheticLiquidModel (isWater : Bool) (height : Int) : BlockModel :=
  let still := if isWater then "block/water_still" else "block/lava_still"
  let flow := if isWater then "block/water_flow" else "block/lava_flow"
  { textures := some
      [("particle", still), ("all", still), ("top", still), ("bottom", still),
       ("north", flow), ("south", flow), ("east", flow), ("west", flow)],
    elements := some
      [{ efrom := (0, 0, 0), eto := (16, height, 16),
         faces :=
           [("down", { texture := "#bottom", cullface := some "down" }),
            ("up", { texture := "#top", cullface := some "up" }),
            ("north", { texture := "#north", cullface := some "north" }),
            ("south", { texture := "#south", cullface := some "south" }),
            ("west", { texture := "#west", cullface := some "west" }),
            ("east", { texture := "#east", cullface := some "east" })]}] }

/-- The liquid height used by `getModel`: level 0 is a full 16-pixel block
(except water sources, drawn 14 pixels high), other levels `16 - 2·level`. -/
def liquidHeight (isWater : Bool) (level : Int) : Int :=
  let h : Int := if level = 0 then 16 else 16 - level * 2
  if isWater ∧ level = 0 then 14 else h

/-- `AssetLoader.getModel`, with the model store abstracted as a lookup
function from (namespace-stripped) model paths to parsed models: liquid
paths get the synthetic model, optionally merged with the literal model
file (file textures override; file elements are adopted only for
non-level-specific paths); other paths resolve their parent chain. -/
def getModel (store : String → Option BlockModel) (modelPath0 : String) :
    BlockModel :=
  let modelPath := stripMc modelPath0
  if jsStartsWith "block/water" modelPath ∨ jsStartsWith "block/lava" modelPath then
    let isWater := jsStartsWith "block/water" modelPath
    let lvlMatch := findLevelSuffix modelPath
    let level : Int := (lvlMatch.getD 0 : Nat)
    let base := syntheticLiquidModel isWater (liquidHeight isWater level)
    let file? :=
      match store modelPath with
      | some m => some m
      | none =>
          match lvlMatch with
          | some _ => store (if isWater then "block/water" else "block/lava")
          | none => none
    match file? with
    | none => base
    | some orig =>
        { base with
          textures :=
            match orig.textures with
            | some ot => some (spreadMerge (base.textures.getD []) ot)
            | none => base.textures,
          elements :=
            if orig.elements.isSome ∧ lvlMatch = none then orig.elements
            else base.elements }
  else
    match store modelPath with
    | none => {}
    | some m => if m.parent.isSome then loadAndMergeModel store m else m

/-! ## BlockMeshBuilder: UV coordinate mapping -/

/-- The quad UV corners `[TL, TR, BL, BR]` built by `mapUVCoordinates`
from a face's pixel UV rect (default `[0,0,16,16]`): pixel coordinates
normalized by 16 with the vertical axis flipped. -/
def baseUVCoords (uv : Option (ℚ × ℚ × ℚ × ℚ)) : List (ℚ × ℚ) :=
  match uv.getD (0, 0, 16, 16) with
  | (uMinPx, vMinPx, uMaxPx, vMaxPx) =>
      let u1 := uMinPx / 16
      let v1 := vMinPx / 16
      let u2 := uMaxPx / 16
      let v2 := vMaxPx / 16
      [(u1, 1 - v1), (u2, 1 - v1), (u1, 1 - v2), (u2, 1 - v2)]

/-- `applyUVRotation`: permute the four corners for 90/180/270 degrees;
0 and any unsupported angle leave the quad unchanged. -/
def applyUVRotationQ (uvs : List (ℚ × ℚ)) (rotation : Int) : List (ℚ × ℚ) :=
  match uvs with
  | [tl, tr, bl, br] =>
      if rotation = 90 then [bl, tl, br, tr]
      else if rotation = 180 then [br, bl, tr, tl]
      else if rotation = 270 then [tr, br, tl, bl]
      else [tl, tr, bl, br]
  | l => l

/-- The per-direction blockstate-rotation contribution actually applied by
`mapUVCoordinates`: only the `y` rotation is used — added for `up`,
`north` and `east`, subtracted for `down`, `south` and `west`. -/
def uvContributionY (direction : String) (yRot : Int) : Int :=
  if direction = "up" then yRot
  else if direction = "down" then -yRot
  else if direction = "north" then yRot
  else if direction = "south" then -yRot
  else if direction = "east" then yRot
  else if direction = "west" then -yRot
  else 0

/-- JavaScript's `((t % 360) + 360) % 360` (the `%` operator truncates
toward zero), landing in `[0, 360)`. -/
def jsMod360 (t : Int) : Int := ((t.tmod 360) + 360).tmod 360

/-- `Math.round(n / 90) * 90` for `n` in `[0, 360)`. -/
def roundTo90 (n : Int) : Int := (((2 * n.toNat + 90) / 180) * 90 : Nat)

/-- `mapUVCoordinates`: build the base quad, add the face rotation and —
unless `uvlock` is exactly `true` — the per-direction `y` contribution,
normalize to `[0,360)`, and if nonzero apply the rotation snapped to the
nearest multiple of 90 (a snap to 360 hits the unsupported-rotation
branch and leaves the quad unchanged).  The blockstate `x` rotation is
read by the source but never used. -/
def mapUVCoordinates (uv : Option (ℚ × ℚ × ℚ × ℚ)) (faceRot : Int)
    (direction : String) (x y : Option Int) (uvlock : Option Bool) :
    List (ℚ × ℚ) :=
  let base := baseUVCoords uv
  let yRot := y.getD 0
  let totalRot :=
    faceRot + (if uvlock ≠ some true then uvContributionY direction yRot else 0)
  let n := jsMod360 totalRot
  if n = 0 then base else applyUVRotationQ base (roundTo90 n)

/-- Spec (claim wording): the per-direction contribution of the
blockstate's `x` and `y` rotations — added for `up`/`north`/`east`-style
faces and subtracted for their opposites. -/
def specClaimedContributionXY (direction : String) (xRot yRot : Int) : Int :=
  if direction = "up" ∨ direction = "north" ∨ direction = "east" then xRot + yRot
  else if direction = "down" ∨ direction = "south" ∨ direction = "west" then
    -(xRot + yRot)
  else 0

/-- Spec (claim wording): total UV rotation per the claim — face rotation
plus, when `uvlock` is false, the claimed `x`+`y` contribution. -/
def specClaimedTotalRotation (faceRot : Int) (direction : String)
    (x y : Option Int) (uvlock : Option Bool) : Int :=
  faceRot +
    (if uvlock ≠ some true then
      specClaimedContributionXY direction (x.getD 0) (y.getD 0)
     else 0)

/-- Spec (amended): the same formula with only the `y` rotation
contributing, written through a per-direction sign. -/
def specAmendedSign (direction : String) : Int :=
  if direction = "up" ∨ direction = "north" ∨ direction = "east" then 1
  else if direction = "down" ∨ direction = "south" ∨ direction = "west" then -1
  else 0

/-- Spec (amended): total UV rotation — face rotation plus, when `uvlock`
is false, the per-direction sign times the blockstate's `y` rotation. -/
def specAmendedTotalRotation (faceRot : Int) (direction : String)
    (y : Option Int) (uvlock : Option Bool) : Int :=
  faceRot +
    (if uvlock ≠ some true then specAmendedSign direction * y.getD 0 else 0)

/-- The normalize-and-snap step applied to a total rotation before the
corner permutation. -/
def appliedUVRotation (base : List (ℚ × ℚ)) (totalRot : Int) : List (ℚ × ℚ) :=
  let n := jsMod360 totalRot
  if n = 0 then base else applyUVRotationQ base (roundTo90 n)

/-! ## AtlasBuilder: binary-tree packing and UV map -/

/-- A pixel-space rectangle (half-open on both axes). -/
structure Rect where
  x : Nat
  y : Nat
  w : Nat
  h : Nat
deriving DecidableEq, Repr

/-- Two rectangles overlap when their interiors share a point. -/
def rectsOverlap (a b : Rect) : Prop :=
  max a.x b.x < min (a.x + a.w) (b.x + b.w) ∧
  max a.y b.y < min (a.y + a.h) (b.y + b.h)

/-- `a` lies within `b`. -/
def rectSub (a b : Rect) : Prop :=
  b.x ≤ a.x ∧ a.x + a.w ≤ b.x + b.w ∧ b.y ≤ a.y ∧ a.y + a.h ≤ b.y + b.h

/-- A packer node: unused leaf, or used with `right` and `down` children. -/
inductive AtlasNode where
  | free (x y w h : Nat)
  | used (x y w h : Nat) (right down : AtlasNode)
deriving Repr

/-- The unused leaf rectangles of a node, in the depth-first order
(`right` before `down`) in which `findNode` visits them. -/
def freeRects : AtlasNode → List Rect
  | .free x y w h => [⟨x, y, w, h⟩]
  | .used _ _ _ _ r d => freeRects r ++ freeRects d

/-- `findNode` followed by `splitNode`: find the first unused node fitting
`(w, h)` depth-first (`right` before `down`), split it into a `right`
child (remaining width at the placed height) and a `down` child (full
width, remaining height), and return the new tree with the placement. -/
def insertNode (w h : Nat) : AtlasNode → Option (AtlasNode × Nat × Nat)
  | .free x y nw nh =>
      if w ≤ nw ∧ h ≤ nh then
        some (.used x y nw nh (.free (x + w) y (nw - w) h)
          (.free x (y + h) nw (nh - h)), x, y)
      else none
  | .used x y nw nh r d =>
      match insertNode w h r with
      | some (r', px, py) => some (.used x y nw nh r' d, px, py)
      | none =>
          match insertNode w h d with
          | some (d', px, py) => some (.used x y nw nh r d', px, py)
          | none => none

/-- A texture to pack: path and source image dimensions. -/
structure TextureInfo where
  path : String
  width : Nat
  height : Nat
deriving DecidableEq, Repr

/-- A placed texture: the source info plus its pixel offset. -/
structure PackedTexture where
  path : String
  width : Nat
  height : Nat
  x : Nat
  y : Nat
deriving DecidableEq, Repr

/-- The packing loop: each texture requests its dimensions plus padding;
textures that do not fit are dropped. -/
def packTexturesGo (pad : Nat) : AtlasNode → List TextureInfo →
    List PackedTexture
  | _, [] => []
  | tree, t :: rest =>
      match insertNode (t.width + pad) (t.height + pad) tree with
      | some (tree', px, py) =>
          ⟨t.path, t.width, t.height, px, py⟩ :: packTexturesGo pad tree' rest
      | none => packTexturesGo pad tree rest

/-- `AtlasBuilder.packTextures` for an `atlasSize × atlasSize` canvas. -/
def packTextures (atlasSize pad : Nat) (textures : List TextureInfo) :
    List PackedTexture :=
  packTexturesGo pad (.free 0 0 atlasSize atlasSize) textures

/-- A normalized UV rectangle. -/
structure UVRect where
  u : ℚ
  v : ℚ
  w : ℚ
  h : ℚ
deriving DecidableEq, Repr

/-- The UV rect recorded for a placed texture: its pixel placement and
original dimensions divided by the atlas size. -/
def uvRectOf (atlasSize : Nat) (t : PackedTexture) : UVRect :=
  ⟨(t.x : ℚ) / (atlasSize : ℚ), (t.y : ℚ) / (atlasSize : ℚ),
   (t.width : ℚ) / (atlasSize : ℚ), (t.height : ℚ) / (atlasSize : ℚ)⟩

/-- JavaScript `Map.prototype.set` on an association list: update the
value in place when the key exists, else append. -/
def jsMapSet (m : List (String × α)) (k : String) (v : α) :
    List (String × α) :=
  if (List.lookup k m).isSome then
    m.map (fun p => if p.1 = k then (k, v) else p)
  else m ++ [(k, v)]

/-- The UV map built by `createAtlasCanvas` while drawing the placed
textures in order. -/
def canvasUVMap (atlasSize : Nat) (packed : List PackedTexture) :
    List (String × UVRect) :=
  packed.foldl (fun m t => jsMapSet m t.path (uvRectOf atlasSize t)) []

/-- The pixel rectangle a placed texture covers on the canvas. -/
def pixelRect (t : PackedTexture) : Rect := ⟨t.x, t.y, t.width, t.height⟩

/-- The padded rectangle reserved for a placement in the packer tree. -/
def paddedRect (pad : Nat) (t : PackedTexture) : Rect :=
  ⟨t.x, t.y, t.width + pad, t.height + pad⟩

/-- Sort comparators of `sortTexturesForPacking` (ascending form of the
descending JavaScript comparators). -/
def leLargest (a b : TextureInfo) : Prop :=
  (max b.width b.height < max a.width a.height ∨
    (max b.width b.height = max a.width a.height ∧
      b.width * b.height ≤ a.width * a.height))

instance : DecidableRel leLargest := fun a b => by
  unfold leLargest; infer_instance

/-- Area-descending comparator. -/
def leArea (a b : TextureInfo) : Prop := b.width * b.height ≤ a.width * a.height

instance : DecidableRel leArea := fun a b => by
  unfold leArea; infer_instance

/-- Height-descending comparator (ties by width). -/
def leHeight (a b : TextureInfo) : Prop :=
  b.height < a.height ∨ (b.height = a.height ∧ b.width ≤ a.width)

instance : DecidableRel leHeight := fun a b => by
  unfold leHeight; infer_instance

/-- Width-descending comparator (ties by height). -/
def leWidth (a b : TextureInfo) : Prop :=
  b.width < a.width ∨ (b.width = a.width ∧ b.height ≤ a.height)

instance : DecidableRel leWidth := fun a b => by
  unfold leWidth; infer_instance

/-- Perimeter-descending comparator. -/
def lePerimeter (a b : TextureInfo) : Prop :=
  b.width + b.height ≤ a.width + a.height

instance : DecidableRel lePerimeter := fun a b => by
  unfold lePerimeter; infer_instance

/-- Packing efficiency: total placed texture area over the atlas area,
as a percentage. -/
def packingEfficiency (atlasSize : Nat) (packed : List PackedTexture) : ℚ :=
  (((packed.map (fun t => t.width * t.height)).sum : ℕ) : ℚ) /
      ((atlasSize : ℚ) * (atlasSize : ℚ)) * 100

/-- One packing strategy: packed textures plus efficiency. -/
structure PackResult where
  packed : List PackedTexture
  efficiency : ℚ

/-- Pack one sorted list. -/
def packWithOrder (atlasSize pad : Nat) (textures : List TextureInfo) :
    PackResult :=
  let packed := packTextures atlasSize pad textures
  ⟨packed, packingEfficiency atlasSize packed⟩

/-- The outcome of `buildAtlas`. -/
structure AtlasOutcome where
  uvMap : List (String × UVRect)
  efficiency : ℚ
  fromCache : Bool
deriving Repr

/-- `buildNewAtlas`: try the five deterministic sort orders, keep the
strategy with the highest efficiency (strictly-greater replaces, so the
earliest best strategy wins), and derive the UV map from its canvas. -/
def buildNewAtlas (atlasSize pad : Nat) (textures : List TextureInfo) :
    AtlasOutcome :=
  let results :=
    [packWithOrder atlasSize pad (List.insertionSort leLargest textures),
     packWithOrder atlasSize pad (List.insertionSort leArea textures),
     packWithOrder atlasSize pad (List.insertionSort leHeight textures),
     packWithOrder atlasSize pad (List.insertionSort leWidth textures),
     packWithOrder atlasSize pad (List.insertionSort lePerimeter textures)]
  let best :=
    results.tail.foldl
      (fun best cur => if cur.efficiency > best.efficiency then cur else best)
      (results.headD ⟨[], 0⟩)
  ⟨canvasUVMap atlasSize best.packed, best.efficiency, false⟩

/-- A cached atlas entry (already validated by `loadFromCache`). -/
structure AtlasCacheEntry where
  uvMap : List (String × UVRect)
  efficiency : ℚ

/-- `AtlasBuilder.buildAtlas`: consult the cache when a cache key is
given; with no usable cache entry and an empty texture list, fail hard
with the dedicated error; otherwise build a new atlas. -/
def buildAtlas (atlasSize pad : Nat) (cache : String → Option AtlasCacheEntry)
    (textures : List TextureInfo) (cacheKey : Option String) :
    Except String AtlasOutcome :=
  let rest : Except String AtlasOutcome :=
    if textures.length = 0 then
      .error "No cache found and no textures provided"
    else .ok (buildNewAtlas atlasSize pad textures)
  match cacheKey with
  | some k =>
      match cache k with
      | some r => .ok ⟨r.uvMap, r.efficiency, true⟩
      | none => rest
  | none => rest

/-! ## Pipeline facade: fallback mesh -/

/-- The fallback mesh of `Cubane.createFallbackMesh`: a magenta wireframe
cube. -/
structure FallbackMeshInfo where
  color : Nat
  wireframe : Bool
deriving DecidableEq, Repr

/-- The outcome of assembling a block mesh. -/
inductive MeshOutcome where
  | fallback (m : FallbackMeshInfo)
  | group (childCount : Nat)
deriving DecidableEq, Repr

/-- `Cubane.getBlockMesh` after model resolution: each resolved model that
builds successfully contributes one child, hybrid dynamic parts contribute
theirs, and an empty root group is replaced by the fallback mesh. -/
def getBlockMeshOutcome (getBS : String → BlockStateDefinition)
    (partBuilder : ModelRefData → Option Unit) (hybridParts : List Unit)
    (b : Block) : MeshOutcome :=
  let models := resolveBlockModel getBS b
  let staticParts := models.filterMap partBuilder
  let children := staticParts.length + hybridParts.length
  if children = 0 then .fallback ⟨0xff00ff, true⟩ else .group children

/-! ## Claim statements and example data

Propositions transcribing claims that fail on the code as stated (to be
refuted below), and the concrete blockstate fixtures used in the claims'
examples. -/

/-- C9 as stated: for every block whose blockstate definition has neither
variants nor multipart (the shape `getBlockState` returns for missing or
unparseable files), `resolveBlockModel` returns the empty list. -/
def claimC9Statement : Prop :=
  ∀ (getBS : String → BlockStateDefinition) (b : Block),
    (getBS (stripMc b.name)).variants = none →
    (getBS (stripMc b.name)).multipart = none →
    resolveBlockModel getBS b = []

/-- C3 as stated: for every model that declares a parent, the model
returned by `loadAndMergeModel` has no `parent` key. -/
def claimC3Statement : Prop :=
  ∀ (store : String → Option BlockModel) (m : BlockModel),
    m.parent.isSome → (loadAndMergeModel store m).parent = none

/-- A concrete six-deep parent chain used to exhibit the 5-hop bound. -/
def chainStore : String → Option BlockModel := fun s =>
  if s = "p1" then some { parent := some "p2", textures := some [("k1", "v1")] }
  else if s = "p2" then some { parent := some "p3", textures := some [("k2", "v2")] }
  else if s = "p3" then some { parent := some "p4", textures := some [("k3", "v3")] }
  else if s = "p4" then some { parent := some "p5", textures := some [("k4", "v4")] }
  else if s = "p5" then some { parent := some "p6", textures := some [("k5", "v5")] }
  else if s = "p6" then some { parent := none, textures := some [("k6", "v6")] }
  else none

/-- C4 as stated: the applied UV rotation equals the face rotation plus,
when `uvlock` is false, the per-direction contribution of the
blockstate's `x` and `y` rotations, snapped to the nearest 90 degrees. -/
def claimC4Statement : Prop :=
  ∀ (uv : Option (ℚ × ℚ × ℚ × ℚ)) (faceRot : Int) (dir : String)
    (x y : Option Int) (uvlock : Option Bool),
    mapUVCoordinates uv faceRot dir x y uvlock =
      appliedUVRotation (baseUVCoords uv)
        (specClaimedTotalRotation faceRot dir x y uvlock)

/-- Example model reference `A` of the spec's variant example. -/
def mdA : ModelRefData := { model := "A" }

/-- Example model reference `B` of the spec's variant example. -/
def mdB : ModelRefData := { model := "B" }

/-- Example model reference `C` of the spec's variant example. -/
def mdC : ModelRefData := { model := "C" }

/-- The spec's variant fixture `{"facing=north": A, "facing=south": B, "": C}`. -/
def exVariants : List (String × VariantVal) :=
  [("facing=north", .one mdA), ("facing=south", .one mdB), ("", .one mdC)]

/-- The blockstate definition holding `exVariants`. -/
def exVariantsDef : BlockStateDefinition := { variants := some exVariants }

/-- C1 as stated: for every block and every blockstate definition
containing (only) variants, `resolveBlockModel` selects the variant by
the spec's strict fallback order. -/
def claimC1Statement : Prop :=
  ∀ (getBS : String → BlockStateDefinition) (b : Block)
    (vs : List (String × VariantVal)),
    (getBS (stripMc b.name)).variants = some vs →
    (getBS (stripMc b.name)).multipart = none →
    resolveBlockModel getBS b = specVariantModels vs b.properties

/-- The spec's first multipart rule `{when:{north:"true"}, apply:X}`. -/
def mpRuleX : MultipartRule :=
  { when := some (.andCond [("north", "true")]),
    applyRef := .one ⟨"X", none, none, none⟩ }

/-- The spec's second multipart rule
`{when:{OR:[{east:"true"},{west:"true"}]}, apply:Y}`. -/
def mpRuleY : MultipartRule :=
  { when := some (.orCond [[("east", "true")], [("west", "true")]]),
    applyRef := .one ⟨"Y", none, none, none⟩ }

/-- The blockstate definition holding the two multipart rules. -/
def exMultipartDef : BlockStateDefinition :=
  { multipart := some [mpRuleX, mpRuleY] }

/-- C2 as stated: for every block and every blockstate definition
containing (only) multipart rules, `resolveBlockModel` evaluates the
rules in declaration order with the spec's condition semantics. -/
def claimC2Statement : Prop :=
  ∀ (getBS : String → BlockStateDefinition) (b : Block)
    (mp : List MultipartRule),
    (getBS (stripMc b.name)).multipart = some mp →
    (getBS (stripMc b.name)).variants = none →
    resolveBlockModel getBS b = specMultipartModels b.properties mp

/-- A property pair whose name and value avoid the `=` and `,`
metacharacters of variant keys (every real blockstate property does). -/
def cleanPair (p : String × String) : Prop :=
  ('=' : Char) ∉ p.1.data ∧ (',' : Char) ∉ p.1.data ∧
  ('=' : Char) ∉ p.2.data ∧ (',' : Char) ∉ p.2.data

instance (p : String × String) : Decidable (cleanPair p) := by
  unfold cleanPair; infer_instance

/-- Variant keys whose values themselves contain `=`, used to refute the
order-insensitivity claim as universally stated. -/
def c8Variants : List (String × VariantVal) :=
  [("a=x=1", .one mdA), ("b=y=1", .one mdB)]

/-- The blockstate definition holding `c8Variants`. -/
def c8Def : BlockStateDefinition := { variants := some c8Variants }

/-- C8 as stated: for every variants-only blockstate, resolution is
insensitive to the insertion order of the block's property map. -/
def claimC8Statement : Prop :=
  ∀ (getBS : String → BlockStateDefinition) (b1 b2 : Block)
    (vs : List (String × VariantVal)),
    (getBS (stripMc b1.name)).variants = some vs →
    (getBS (stripMc b1.name)).multipart = none →
    b1.name = b2.name →
    (b1.properties.map Prod.fst).Nodup →
    b1.properties.Perm b2.properties →
    resolveBlockModel getBS b1 = resolveBlockModel getBS b2

/-! ## Claim C10: `buildAtlas` with no textures and no cache hit -/

/-- C10: for every call to `buildAtlas` with an empty textures list, if no
cached atlas entry is found for the given cache key (or no cache key is
given), the result is the hard error
`"No cache found and no textures provided"`. -/
theorem claim_C10 (atlasSize pad : Nat)
    (cache : String → Option AtlasCacheEntry) (cacheKey : Option String)
    (h : cacheKey = none ∨ ∃ k, cacheKey = some k ∧ cache k = none) :
    buildAtlas atlasSize pad cache [] cacheKey =
      .error "No cache found and no textures provided" := by
  rcases h with h | ⟨k, hk, hc⟩
  · subst h; rfl
  · subst hk; simp [buildAtlas, hc]

/-- C10 witness: a concrete cache key whose lookup misses. -/
theorem claim_C10_witness :
    buildAtlas 16 1 (fun _ => none) [] (some "key") =
      .error "No cache found and no textures provided" :=
  claim_C10 16 1 (fun _ => none) (some "key") (Or.inr ⟨"key", rfl, rfl⟩)

/-! ## Claim C9: missing/empty blockstate definitions -/


/-- C9 counterexample: a block named `water` bypasses the blockstate
lookup entirely and returns a synthetic liquid entry even though its
blockstate definition is missing, so the claim as universally stated
fails. -/
theorem claim_C9_counterexample : ¬ claimC9Statement := by
  intro h
  exact absurd (h (fun _ => {}) ⟨"water", []⟩ rfl rfl) (by decide)

/-- C9 (amended to blocks outside the liquid bypass): a block that is not
named `water`/`flowing_water`/`lava`/`flowing_lava` and whose blockstate
definition has neither variants nor multipart resolves to the empty model
list — the embedding is a total function, so no error is raised — and the
caller-level mesh assembly then produces the magenta wireframe fallback
mesh rather than an error. -/
theorem claim_C9 (getBS : String → BlockStateDefinition)
    (partBuilder : ModelRefData → Option Unit) (b : Block)
    (hliq : ¬ liquidBlockName b.name)
    (hv : (getBS (stripMc b.name)).variants = none)
    (hm : (getBS (stripMc b.name)).multipart = none) :
    resolveBlockModel getBS b = [] ∧
    getBlockMeshOutcome getBS partBuilder [] b =
      .fallback ⟨0xff00ff, true⟩ := by
  have hres : resolveBlockModel getBS b = [] := by
    simp [resolveBlockModel, hliq, hv, hm]
  refine ⟨hres, ?_⟩
  simp [getBlockMeshOutcome, hres]

/-- C9 witness: a stone block with an entirely missing blockstate. -/
theorem claim_C9_witness :
    resolveBlockModel (fun _ => {}) ⟨"stone", []⟩ = [] ∧
    getBlockMeshOutcome (fun _ => {}) (fun _ => some ()) [] ⟨"stone", []⟩ =
      .fallback ⟨0xff00ff, true⟩ :=
  claim_C9 (fun _ => {}) (fun _ => some ()) ⟨"stone", []⟩ (by decide) rfl rfl

/-! ## Claim C5: liquid bypass and synthetic liquid models -/

/-- A `takeWhile` over a list all of whose elements satisfy the predicate
returns the list itself. -/
theorem takeWhile_all (p : α → Bool) (l : List α) (h : ∀ c ∈ l, p c) :
    l.takeWhile p = l := by
  induction l with
  | nil => rfl
  | cons a as ih =>
      simp [List.takeWhile, h a (by simp)]
      exact fun c hc => h c (by simp [hc])

/-- `removeFirst` is the identity when the pattern's first character does
not occur in the string. -/
theorem removeFirst_no_head (p : Char) (ps l : List Char) (h : p ∉ l) :
    removeFirst (p :: ps) l = l := by
  induction l with
  | nil => rfl
  | cons x xs ih =>
      have hx : (p == x) = false :=
        beq_eq_false_iff_ne.mpr (fun he => h (by simp [he.symm]))
      simp [removeFirst, List.isPrefixOf, hx,
        ih (fun hm => h (by simp [hm]))]

/-- The level scanner on a water path with a digit suffix. -/
theorem findLevel_water (ds : List Char) (h1 : ds ≠ [])
    (h2 : ∀ c ∈ ds, c.isDigit) :
    findLevelAux ("block/water_level_".data ++ ds) = some (digitsVal ds) := by
  have hd : "block/water_level_".data =
      ['b','l','o','c','k','/','w','a','t','e','r','_','l','e','v','e','l','_'] := rfl
  rw [hd]
  simp only [List.cons_append, List.nil_append]
  simp [findLevelAux, List.isPrefixOf, takeWhile_all _ _ h2, h1]

/-- The level scanner on a lava path with a digit suffix. -/
theorem findLevel_lava (ds : List Char) (h1 : ds ≠ [])
    (h2 : ∀ c ∈ ds, c.isDigit) :
    findLevelAux ("block/lava_level_".data ++ ds) = some (digitsVal ds) := by
  have hd : "block/lava_level_".data =
      ['b','l','o','c','k','/','l','a','v','a','_','l','e','v','e','l','_'] := rfl
  rw [hd]
  simp only [List.cons_append, List.nil_append]
  simp [findLevelAux, List.isPrefixOf, takeWhile_all _ _ h2, h1]

/-- A digit character is not the letter `m`. -/
theorem digit_ne_m {c : Char} (h : c.isDigit = true) : c ≠ 'm' := by
  intro he; subst he; simp [Char.isDigit] at h

/-- Namespace stripping leaves a water level path unchanged. -/
theorem stripMc_water_level (ds : List Char) (h2 : ∀ c ∈ ds, c.isDigit) :
    stripMc ⟨"block/water_level_".data ++ ds⟩ =
      ⟨"block/water_level_".data ++ ds⟩ := by
  unfold stripMc jsRemoveFirst
  congr 1
  apply removeFirst_no_head
  intro hm
  rcases List.mem_append.mp hm with hm | hm
  · exact absurd hm (by decide)
  · exact digit_ne_m (h2 _ hm) rfl

/-- Namespace stripping leaves a lava level path unchanged. -/
theorem stripMc_lava_level (ds : List Char) (h2 : ∀ c ∈ ds, c.isDigit) :
    stripMc ⟨"block/lava_level_".data ++ ds⟩ =
      ⟨"block/lava_level_".data ++ ds⟩ := by
  unfold stripMc jsRemoveFirst
  congr 1
  apply removeFirst_no_head
  intro hm
  rcases List.mem_append.mp hm with hm | hm
  · exact absurd hm (by decide)
  · exact digit_ne_m (h2 _ hm) rfl

/-- With no model files available, `getModel` on a water level path
synthesizes the cuboid with the claimed height formula. -/
theorem getModel_water_level (ds : List Char) (h1 : ds ≠ [])
    (h2 : ∀ c ∈ ds, c.isDigit) :
    getModel (fun _ => none) ⟨"block/water_level_".data ++ ds⟩ =
      syntheticLiquidModel true
        (if (digitsVal ds : Int) = 0 then 14
         else 16 - 2 * (digitsVal ds : Int)) := by
  have hpre : jsStartsWith "block/water" ⟨"block/water_level_".data ++ ds⟩ = true := by
    unfold jsStartsWith
    rfl
  unfold getModel
  rw [stripMc_water_level ds h2]
  simp only [hpre, findLevelSuffix, findLevel_water ds h1 h2]
  by_cases hz : ((digitsVal ds : Int)) = 0 <;>
    simp [liquidHeight, hz, Int.mul_comm]

/-- With no model files available, `getModel` on a lava level path
synthesizes the cuboid with the claimed height formula. -/
theorem getModel_lava_level (ds : List Char) (h1 : ds ≠ [])
    (h2 : ∀ c ∈ ds, c.isDigit) :
    getModel (fun _ => none) ⟨"block/lava_level_".data ++ ds⟩ =
      syntheticLiquidModel false
        (if (digitsVal ds : Int) = 0 then 16
         else 16 - 2 * (digitsVal ds : Int)) := by
  have hpre1 : jsStartsWith "block/water" ⟨"block/lava_level_".data ++ ds⟩ = false := by
    unfold jsStartsWith
    rfl
  have hpre2 : jsStartsWith "block/lava" ⟨"block/lava_level_".data ++ ds⟩ = true := by
    unfold jsStartsWith
    rfl
  unfold getModel
  rw [stripMc_lava_level ds h2]
  simp only [hpre1, hpre2, findLevelSuffix, findLevel_lava ds h1 h2]
  by_cases hz : ((digitsVal ds : Int)) = 0 <;>
    simp [liquidHeight, hz, Int.mul_comm]

/-- C5: liquid blocks bypass the blockstate lookup (for every blockstate
store) and return exactly one `ModelData` with `x = 0`, `y = 0`,
`uvlock = false` whose path encodes the `level` property; and the model
synthesized for such a path (with no model files present) is the single
cuboid `[0,0,0]–[16,height,16]` — height 14 for water at level 0, 16 for
lava at level 0, `16 - 2·level` otherwise — with still texture on
top/bottom/particle, flow texture on the four sides, and each face
cullfaced by its own direction (see `syntheticLiquidModel`). -/
theorem claim_C5 :
    (∀ (getBS : String → BlockStateDefinition) (b : Block),
        liquidBlockName b.name →
        resolveBlockModel getBS b = createLiquidModelData b) ∧
    (∀ (b : Block) (s : String) (l : Int),
        List.lookup "level" b.properties = some s → s ≠ "" →
        jsParseInt s = some l →
        createLiquidModelData b =
          [{ model :=
               if jsIncludes "water" b.name then
                 (if l = 0 then "block/water"
                  else "block/water_level_" ++ toString l)
               else
                 (if l = 0 then "block/lava"
                  else "block/lava_level_" ++ toString l),
             x := some 0, y := some 0, uvlock := some false }]) ∧
    (∀ b : Block, List.lookup "level" b.properties = none →
        createLiquidModelData b =
          [{ model := if jsIncludes "water" b.name then "block/water" else "block/lava",
             x := some 0, y := some 0, uvlock := some false }]) ∧
    getModel (fun _ => none) "block/water" = syntheticLiquidModel true 14 ∧
    getModel (fun _ => none) "block/lava" = syntheticLiquidModel false 16 ∧
    (∀ ds : List Char, ds ≠ [] → (∀ c ∈ ds, c.isDigit) →
        getModel (fun _ => none) ⟨"block/water_level_".data ++ ds⟩ =
          syntheticLiquidModel true
            (if (digitsVal ds : Int) = 0 then 14
             else 16 - 2 * (digitsVal ds : Int)) ∧
        getModel (fun _ => none) ⟨"block/lava_level_".data ++ ds⟩ =
          syntheticLiquidModel false
            (if (digitsVal ds : Int) = 0 then 16
             else 16 - 2 * (digitsVal ds : Int))) := by
  refine ⟨?_, ?_, ?_, by decide, by decide, ?_⟩
  · intro getBS b h
    simp [resolveBlockModel, h]
  · intro b s l hlook hs hparse
    simp [createLiquidModelData, hlook, hs, hparse]
  · intro b hlook
    simp [createLiquidModelData, hlook]
  · intro ds h1 h2
    exact ⟨getModel_water_level ds h1 h2, getModel_lava_level ds h1 h2⟩

/-- C5 witness: `flowing_lava` at level 3 and a water path at level 3. -/
theorem claim_C5_witness :
    resolveBlockModel (fun _ => {}) ⟨"flowing_lava", [("level", "3")]⟩ =
      createLiquidModelData ⟨"flowing_lava", [("level", "3")]⟩ ∧
    createLiquidModelData ⟨"flowing_lava", [("level", "3")]⟩ =
      [{ model := "block/lava_level_3", x := some 0, y := some 0,
         uvlock := some false }] ∧
    getModel (fun _ => none) ⟨"block/water_level_".data ++ ['3']⟩ =
      syntheticLiquidModel true 10 := by
  obtain ⟨h1, h2, _, _, _, h6⟩ := claim_C5
  refine ⟨h1 (fun _ => {}) _ (by decide), ?_, ?_⟩
  · rw [h2 ⟨"flowing_lava", [("level", "3")]⟩ "3" 3 (by decide) (by decide)
      (by decide)]
    decide
  · rw [(h6 ['3'] (by decide) (by decide)).1]
    decide

/-! ## Claim C6: texture reference resolution -/

/-- C6: `resolveTexture` returns the sentinel for `"#missing"` or an
empty reference; returns a non-`#` literal as-is with any `minecraft:`
prefix stripped; resolves the chain `#end → #side → "block/stone"` to
`"block/stone"`; and maps a self-referential chain exceeding the 5-hop
bound to the sentinel rather than looping. -/
theorem claim_C6 (model : BlockModel) (s : String) :
    resolveTexture "" model = "block/missing_texture" ∧
    resolveTexture "#missing" model = "block/missing_texture" ∧
    (¬ startsWithHash s = true → s ≠ "" →
      resolveTexture s model = stripMc s) ∧
    resolveTexture "#end"
        { textures := some [("end", "#side"), ("side", "block/stone")] } =
      "block/stone" ∧
    resolveTexture "#self" { textures := some [("self", "#self")] } =
      "block/missing_texture" := by
  refine ⟨by simp [resolveTexture], by simp [resolveTexture], ?_,
    by decide, by decide⟩
  intro hh hs
  have hm : s ≠ "#missing" := by
    intro he; subst he; exact hh (by decide)
  simp [resolveTexture, hh, hs, hm]

/-- C6 witness: the literal arm at a namespaced texture path. -/
theorem claim_C6_witness :
    resolveTexture "minecraft:block/dirt" {} = stripMc "minecraft:block/dirt" :=
  (claim_C6 {} "minecraft:block/dirt").2.2.1 (by decide) (by decide)

/-! ## Claim C3: parent-chain resolution -/


/-- C3 counterexample: a model declaring the empty parent `""` hits the
falsy-parent early return of `loadAndMergeModel` (`if (!model.parent)`),
so the returned model still carries its `parent` key. -/
theorem claim_C3_counterexample : ¬ claimC3Statement := by
  intro h
  exact absurd (h (fun _ => none) { parent := some "" } (by decide)) (by decide)


/-- C3 (amended to models declaring a non-empty parent): the returned
model has no `parent` key; a missing parent file stops the merge with
only what was resolved so far (the embedding is total, so nothing is
thrown); the spec's merge example — child `{parent: P, textures:{top:A}}`
over parent `{textures:{top:B, side:C}, elements:[E]}` — yields textures
`{top:A, side:C}` with elements `[E]` and no parent; and a six-parent
chain is merged only five hops deep (`k6` is never reached). -/
theorem claim_C3 (store : String → Option BlockModel) (m : BlockModel)
    (p : String) (el : Element) (hm : m.parent = some p) (hp : p ≠ "") :
    (loadAndMergeModel store m).parent = none ∧
    (store (stripMc p) = none →
      loadAndMergeModel store m = { m with parent := none }) ∧
    loadAndMergeModel
        (fun s => if s = "P" then
            some { textures := some [("top", "B"), ("side", "C")],
                   elements := some [el] }
          else none)
        { parent := some "P", textures := some [("top", "A")] } =
      { parent := none, textures := some [("top", "A"), ("side", "C")],
        elements := some [el] } ∧
    loadAndMergeModel chainStore
        { parent := some "p1", textures := some [("k0", "v0")] } =
      { parent := none,
        textures := some [("k5", "v5"), ("k4", "v4"), ("k3", "v3"),
          ("k2", "v2"), ("k1", "v1"), ("k0", "v0")],
        elements := none } := by
  refine ⟨?_, ?_, ?_, by decide⟩
  · simp [loadAndMergeModel, hm, hp]
  · intro hs
    simp [loadAndMergeModel, hm, hp]
    rw [show (5 : Nat) = 4 + 1 from rfl]
    simp [mergeParentsLoop, hp, hs]
  · simp only [loadAndMergeModel]
    rw [show (5 : Nat) = 4 + 1 from rfl]
    simp [mergeParentsLoop, mergeOnce, show stripMc "P" = "P" from rfl,
      spreadMerge]
    decide

/-- C3 witness: a model with a non-empty but missing parent. -/
theorem claim_C3_witness :
    (loadAndMergeModel (fun _ => none) { parent := some "Q" }).parent = none ∧
    loadAndMergeModel (fun _ => none) { parent := some "Q" } =
      { ({ parent := some "Q" } : BlockModel) with parent := none } := by
  obtain ⟨h1, h2, _, _⟩ :=
    claim_C3 (fun _ => none) { parent := some "Q" } "Q"
      { efrom := (0, 0, 0), eto := (0, 0, 0), faces := [] } rfl (by decide)
  exact ⟨h1, h2 rfl⟩

/-! ## Claim C4: UV rotation applied by the mesh builder -/

/-- The contribution actually applied coincides with the per-direction
sign times the `y` rotation alone. -/
theorem uvContributionY_eq (dir : String) (yv : Int) :
    uvContributionY dir yv = specAmendedSign dir * yv := by
  unfold uvContributionY specAmendedSign
  split_ifs <;> simp_all <;> ring


/-- C4 counterexample: for an `up` face with blockstate rotations
`x = 90`, `y = 0` and `uvlock` false, the claimed formula rotates the
quad by 90 degrees but the code applies no rotation — the source reads
`transform.x` into `xRot` and never uses it. -/
theorem claim_C4_counterexample : ¬ claimC4Statement := by
  intro h
  have hinst := h none 0 "up" (some 90) (some 0) (some false)
  have h0 : ((Int.tmod (0 : Int) 360 + 360).tmod 360) = 0 := by decide
  have h90 : ((Int.tmod (90 : Int) 360 + 360).tmod 360) = 90 := by decide
  have hL : mapUVCoordinates none 0 "up" (some 90) (some 0) (some false) =
      [(0, 1), (1, 1), (0, 0), (1, 0)] := by
    simp [mapUVCoordinates, baseUVCoords, uvContributionY, jsMod360, h0]
  have hR : appliedUVRotation (baseUVCoords none)
      (specClaimedTotalRotation 0 "up" (some 90) (some 0) (some false)) =
      [(0, 0), (0, 1), (1, 0), (1, 1)] := by
    simp [appliedUVRotation, baseUVCoords, specClaimedTotalRotation,
      specClaimedContributionXY, jsMod360, h90, roundTo90, applyUVRotationQ]
  rw [hL, hR] at hinst
  simp at hinst

/-- C4 (amended: only the `y` rotation contributes): the applied UV
rotation equals the face's declared rotation plus, when `uvlock` is
false, the per-direction sign (`+` for up/north/east, `-` for
down/south/west, 0 otherwise) times the blockstate's `y` rotation,
normalized and snapped to the nearest 90 degrees before being applied to
the quad's UV corners; and the result is independent of the blockstate's
`x` rotation. -/
theorem claim_C4 (uv : Option (ℚ × ℚ × ℚ × ℚ)) (faceRot : Int)
    (dir : String) (x x' y : Option Int) (uvlock : Option Bool) :
    mapUVCoordinates uv faceRot dir x y uvlock =
      appliedUVRotation (baseUVCoords uv)
        (specAmendedTotalRotation faceRot dir y uvlock) ∧
    mapUVCoordinates uv faceRot dir x y uvlock =
      mapUVCoordinates uv faceRot dir x' y uvlock := by
  constructor
  · simp only [mapUVCoordinates, appliedUVRotation, specAmendedTotalRotation,
      uvContributionY_eq]
  · rfl

/-! ## Claim C1: variant selection fallback order -/

/-- The first component of `evalKey` is exactly "no requested property
conflicts with the variant key". -/
theorem evalKey_fst (vp : List (String × Option String))
    (props : List (String × String)) :
    (evalKey vp props).1 = props.all (fun p => !(conflictsB vp p)) := by
  induction props with
  | nil => rfl
  | cons p rest ih =>
      obtain ⟨n, v⟩ := p
      cases hf : vp.find? (fun q => q.1 = n) with
      | none => simp [evalKey, hf, conflictsB, ih]
      | some q =>
          by_cases hv : q.2 = some v
          · simp [evalKey, hf, hv, conflictsB, ih]
          · simp [evalKey, hf, hv, conflictsB, ih]

/-- On a conflict-free key, the second component of `evalKey` counts the
explicitly agreeing properties. -/
theorem evalKey_snd (vp : List (String × Option String))
    (props : List (String × String)) (h : (evalKey vp props).1 = true) :
    (evalKey vp props).2 = props.countP (agreesB vp) := by
  induction props with
  | nil => rfl
  | cons p rest ih =>
      obtain ⟨n, v⟩ := p
      cases hf : vp.find? (fun q => q.1 = n) with
      | none =>
          have h' : (evalKey vp rest).1 = true := by
            simpa [evalKey, hf] using h
          simp [evalKey, hf, agreesB, ih h', List.countP_cons]
      | some q =>
          by_cases hv : q.2 = some v
          · have h' : (evalKey vp rest).1 = true := by
              simpa [evalKey, hf, hv] using h
            simp [evalKey, hf, hv, agreesB, ih h', List.countP_cons]
          · exact absurd h (by simp [evalKey, hf, hv])

/-- The spec's validity test coincides with the code's `allMatch` flag. -/
theorem specValidKey_eq (props : List (String × String)) (k : String) :
    specValidKey props k = (evalKey (parseVariantKey k) props).1 := by
  rw [evalKey_fst]; rfl

/-- The spec's agreement count coincides with the code's `matchCount` on
valid keys. -/
theorem specAgreeCount_eq (props : List (String × String)) (k : String)
    (h : (evalKey (parseVariantKey k) props).1 = true) :
    (specAgreeCount props k) = (evalKey (parseVariantKey k) props).2 := by
  rw [evalKey_snd _ _ h]; rfl

/-- `pickFirstMax` returns a member of its list. -/
theorem pickFirstMax_mem (f : α → Nat) (l : List α) (k : α)
    (h : pickFirstMax f l = some k) : k ∈ l := by
  induction l generalizing k with
  | nil => exact Option.noConfusion h
  | cons x xs ih =>
      simp only [pickFirstMax] at h
      cases hx : pickFirstMax f xs with
      | none => rw [hx] at h; simp at h; simp [h]
      | some b =>
          rw [hx] at h
          by_cases hb : f b > f x
          · simp [hb] at h; subst h; exact List.mem_cons_of_mem _ (ih _ hx)
          · simp [hb] at h; simp [h]

/-- The code's single left-to-right best-match fold computes the first
maximum over the valid candidates, relative to any starting accumulator. -/
theorem bestFold_spec (props : List (String × String)) (keys : List String)
    (bk : String) (bc : Int) :
    keys.foldl (bestKeyStep props) (bk, bc) =
      (pickFirstMax (specAgreeCount props)
          (keys.filter (fun k => k ≠ "" ∧ specValidKey props k))).elim
        (bk, bc)
        (fun k => if ((specAgreeCount props k : Int)) > bc then
            (k, (specAgreeCount props k : Int)) else (bk, bc)) := by
  induction keys generalizing bk bc with
  | nil => rfl
  | cons k rest ih =>
      by_cases hk : k = ""
      · subst hk
        have hstep : bestKeyStep props (bk, bc) "" = (bk, bc) := by
          simp [bestKeyStep]
        have hfil : ("" :: rest).filter
            (fun k => k ≠ "" ∧ specValidKey props k) =
            rest.filter (fun k => k ≠ "" ∧ specValidKey props k) := by
          simp [List.filter]
        rw [List.foldl_cons, hstep, hfil, ih]
      · by_cases hval : specValidKey props k = true
        · have hfst : (evalKey (parseVariantKey k) props).1 = true := by
            rw [← specValidKey_eq]; exact hval
          have hcnt : ((evalKey (parseVariantKey k) props).2) =
              specAgreeCount props k := (specAgreeCount_eq _ _ hfst).symm
          have hstep : bestKeyStep props (bk, bc) k =
              (if ((specAgreeCount props k : Int)) > bc then
                (k, (specAgreeCount props k : Int)) else (bk, bc)) := by
            simp [bestKeyStep, hk, hfst, hcnt]
          have hfil : (k :: rest).filter
              (fun k => k ≠ "" ∧ specValidKey props k) =
              k :: rest.filter (fun k => k ≠ "" ∧ specValidKey props k) := by
            simp [List.filter, hk, hval]
          rw [List.foldl_cons, hstep, hfil]
          set f := specAgreeCount props with hf
          set l' := rest.filter (fun k => k ≠ "" ∧ specValidKey props k) with hl'
          by_cases hgt : ((f k : Int)) > bc
          · rw [if_pos hgt, ih]
            cases hp : pickFirstMax f l' with
            | none => simp [pickFirstMax, hp, hgt]
            | some b =>
                by_cases hfb : f b > f k
                · have h1 : ((f b : Int)) > (f k : Int) := by exact_mod_cast hfb
                  have h2 : ((f b : Int)) > bc := lt_trans hgt h1
                  simp [pickFirstMax, hp, hfb, h1, h2]
                · have h1 : ¬ ((f b : Int)) > (f k : Int) := by exact_mod_cast hfb
                  simp [pickFirstMax, hp, hfb, h1, hgt]
          · rw [if_neg hgt, ih]
            cases hp : pickFirstMax f l' with
            | none => simp [pickFirstMax, hp, hgt]
            | some b =>
                by_cases hfb : f b > f k
                · simp [pickFirstMax, hp, hfb]
                · have h2 : ¬ ((f b : Int)) > bc := by
                    have : (f b : Int) ≤ (f k : Int) := by
                      exact_mod_cast Nat.not_lt.mp hfb
                    omega
                  simp [pickFirstMax, hp, hfb, hgt, h2]
        · have hfst : (evalKey (parseVariantKey k) props).1 = false := by
            rw [← specValidKey_eq]; simpa using hval
          have hstep : bestKeyStep props (bk, bc) k = (bk, bc) := by
            simp [bestKeyStep, hk, hfst]
          have hfil : (k :: rest).filter
              (fun k => k ≠ "" ∧ specValidKey props k) =
              rest.filter (fun k => k ≠ "" ∧ specValidKey props k) := by
            simp [List.filter, hk, hval]
          rw [List.foldl_cons, hstep, hfil, ih]

/-- The code's best key is the spec's best candidate (or `""` when no
candidate is valid). -/
theorem bestVariantKey_spec (vs : List (String × VariantVal))
    (props : List (String × String)) :
    bestVariantKey vs props = (specBestKey vs props).getD "" := by
  unfold bestVariantKey specBestKey
  rw [bestFold_spec]
  cases hp : pickFirstMax (specAgreeCount props)
      ((vs.map Prod.fst).filter (fun k => k ≠ "" ∧ specValidKey props k)) with
  | none => rfl
  | some k =>
      have : ((specAgreeCount props k : Int)) > -1 := by
        have := Int.ofNat_nonneg (specAgreeCount props k)
        omega
      simp [Option.elim, this]

/-- The spec's best candidate is never the empty key. -/
theorem specBestKey_ne_empty (vs : List (String × VariantVal))
    (props : List (String × String)) (k : String)
    (h : specBestKey vs props = some k) : k ≠ "" := by
  have hm := pickFirstMax_mem _ _ _ h
  have := List.mem_filter.mp hm
  simpa using (of_decide_eq_true this.2).1

/-- The code's guarded best-key lookup equals the spec's bind. -/
theorem bestBranch_eq (vs : List (String × VariantVal))
    (props : List (String × String)) :
    (if bestVariantKey vs props ≠ "" then
        List.lookup (bestVariantKey vs props) vs else none) =
      (specBestKey vs props).bind (fun k => List.lookup k vs) := by
  cases hb : specBestKey vs props with
  | none => simp [bestVariantKey_spec, hb]
  | some k =>
      have hk := specBestKey_ne_empty vs props k hb
      simp [bestVariantKey_spec, hb, hk]

/-- The code's single-property loop is the first-hit search of the spec. -/
theorem singlePropVariant_spec (vs : List (String × VariantVal))
    (props : List (String × String)) :
    singlePropVariant vs props =
      props.findSome? (fun p => List.lookup (p.1 ++ "=" ++ p.2) vs) := by
  induction props with
  | nil => rfl
  | cons p rest ih =>
      obtain ⟨k, v⟩ := p
      cases hl : List.lookup (k ++ "=" ++ v) vs with
      | none => simp [singlePropVariant, hl, List.findSome?_cons, ih]
      | some h => simp [singlePropVariant, hl, List.findSome?_cons]

/-- The code's variant key (with its empty-properties shortcut) equals
the spec's filtered-sorted-joined key. -/
theorem buildVariantKey_spec (vs : List (String × VariantVal))
    (props : List (String × String)) :
    buildVariantKey vs props = specVariantKey vs props := by
  cases props with
  | nil => rfl
  | cons p rest => simp [buildVariantKey, specVariantKey]

/-- The full selection cascade of the code equals the spec's strict
fallback order. -/
theorem findVariant_spec (vs : List (String × VariantVal))
    (props : List (String × String)) :
    findVariant vs props = specSelectVariant vs props := by
  unfold findVariant specSelectVariant
  rw [buildVariantKey_spec]
  cases h1 : List.lookup (specVariantKey vs props) vs with
  | some v => simp [Option.orElse, h1]
  | none =>
      cases h2 : List.lookup "" vs with
      | some v => simp [Option.orElse, h1, h2]
      | none =>
          rw [← bestBranch_eq]
          cases h3 : (if bestVariantKey vs props ≠ "" then
              List.lookup (bestVariantKey vs props) vs else none) with
          | some v => simp [Option.orElse, h1, h2, h3]
          | none =>
              rw [← singlePropVariant_spec]
              cases h4 : singlePropVariant vs props with
              | some v => simp [Option.orElse, h1, h2, h3, h4]
              | none => simp [Option.orElse, h1, h2, h3, h4]

/-- The models produced by the variants section follow the spec. -/
theorem variantModels_spec (vs : List (String × VariantVal))
    (props : List (String × String)) :
    variantModels vs props = specVariantModels vs props := by
  unfold variantModels specVariantModels
  rw [findVariant_spec]

/-- C1 counterexample: the fixture `{"facing=north": A, "facing=south":
B, "": C}` resolved for a block named `water` with `facing=east` — the
liquid bypass returns the synthetic water entry instead of the
fallback-selected `C`, so the claim's universal quantification over
blocks fails. -/
theorem claim_C1_counterexample : ¬ claimC1Statement := by
  intro h
  exact absurd
    (h (fun _ => exVariantsDef) ⟨"water", [("facing", "east")]⟩ exVariants
      rfl rfl)
    (by decide)

/-- C1 (amended to blocks outside the liquid bypass): for every such
block and every variants-only blockstate definition, `resolveBlockModel`
selects the variant by the strict fallback order of the spec — exact
filtered-sorted key, empty key, best conflict-free partial match with
most agreements and first-key tie-break, first single-property literal
hit in property encounter order, first variant key — taking index 0 of
list values; and on the spec's fixture a block with `facing=east` falls
through to `C`. -/
theorem claim_C1 :
    (∀ (getBS : String → BlockStateDefinition) (b : Block)
        (vs : List (String × VariantVal)),
      ¬ liquidBlockName b.name →
      (getBS (stripMc b.name)).variants = some vs →
      (getBS (stripMc b.name)).multipart = none →
      resolveBlockModel getBS b = specVariantModels vs b.properties) ∧
    resolveBlockModel (fun _ => exVariantsDef)
        ⟨"stone", [("facing", "east")]⟩ = [mdC] := by
  constructor
  · intro getBS b vs hliq hv hm
    simp [resolveBlockModel, hliq, hv, hm, variantModels_spec]
  · decide

/-- C1 witness: the fixture resolved for a stone block with
`facing=north`. -/
theorem claim_C1_witness :
    resolveBlockModel (fun _ => exVariantsDef)
        ⟨"stone", [("facing", "north")]⟩ =
      specVariantModels exVariants [("facing", "north")] :=
  claim_C1.1 (fun _ => exVariantsDef) ⟨"stone", [("facing", "north")]⟩
    exVariants (by decide) rfl rfl

/-! ## Claim C2: multipart rule evaluation -/

/-- Splitting at a character absent from the string yields the whole
string. -/
theorem splitChar_single (c : Char) (l : List Char) (h : c ∉ l) :
    splitChar c l = [l] := by
  induction l with
  | nil => rfl
  | cons x xs ih =>
      have hx : ¬ (x = c) := fun he => h (by simp [he])
      have hxs : c ∉ xs := fun hm => h (by simp [hm])
      simp [splitChar, hx, ih hxs]

/-- Single-character substring search is membership. -/
theorem containsSub_singleton (c : Char) (l : List Char) :
    containsSub [c] l = true ↔ c ∈ l := by
  induction l with
  | nil => simp [containsSub, List.isEmpty]
  | cons x xs ih =>
      simp [containsSub, List.isPrefixOf, ih]

/-- The code's condition test — equality, or membership when the expected
value contains `|` — is exactly membership in the `|`-split value set. -/
theorem matchesCondition_spec (props : List (String × String))
    (cond : List (String × String)) :
    matchesCondition props cond = specCondMatches props cond := by
  induction cond with
  | nil => rfl
  | cons pe rest ih =>
      obtain ⟨p, v⟩ := pe
      cases hl : List.lookup p props with
      | none => simp [matchesCondition, specCondMatches, hl]
      | some bv =>
          by_cases hpipe : jsIncludes "|" v = true
          · by_cases hmem : bv ∈ jsSplit '|' v
            · simp [matchesCondition, specCondMatches, hl, hpipe, hmem, ih]
            · simp [matchesCondition, specCondMatches, hl, hpipe, hmem]
          · have hnot : ('|' : Char) ∉ v.data := by
              intro hm
              exact hpipe ((containsSub_singleton '|' v.data).mpr hm)
            have hsplit : jsSplit '|' v = [v] := by
              unfold jsSplit
              rw [splitChar_single _ _ hnot]
              rfl
            by_cases hev : bv = v
            · simp [matchesCondition, specCondMatches, hl, hpipe, hsplit,
                hev, ih]
            · simp [matchesCondition, specCondMatches, hl, hpipe, hsplit, hev]

/-- Rule applicability follows the spec. -/
theorem ruleApplies_spec (props : List (String × String))
    (r : MultipartRule) :
    ruleApplies props r = specRuleApplies props r := by
  have hF : matchesCondition props = specCondMatches props :=
    funext (matchesCondition_spec props)
  unfold ruleApplies specRuleApplies
  rw [hF]

/-- A guarded appending fold is a filter-and-concatenate. -/
theorem foldl_filter_append (A : α → Bool) (h : α → List β)
    (rules : List α) (acc : List β) :
    rules.foldl (fun acc r => if A r then acc ++ h r else acc) acc =
      acc ++ (rules.filter A).flatMap h := by
  induction rules generalizing acc with
  | nil => simp
  | cons r rest ih =>
      by_cases ha : A r = true
      · simp [List.foldl_cons, List.filter_cons, ha, ih]
      · simp [List.foldl_cons, List.filter_cons, ha, ih]

/-- The multipart evaluation loop follows the spec. -/
theorem multipartModels_spec (props : List (String × String))
    (rules : List MultipartRule) :
    multipartModels props rules = specMultipartModels props rules := by
  have hF : ruleApplies props = specRuleApplies props :=
    funext (ruleApplies_spec props)
  unfold multipartModels specMultipartModels
  rw [hF, foldl_filter_append (specRuleApplies props)
    (fun r => holderModels r.applyRef) rules []]
  rfl

/-- C2 counterexample: the multipart fixture evaluated for a block named
`water` — the liquid bypass returns the synthetic water entry instead of
evaluating the rules, so the claim's universal quantification over blocks
fails. -/
theorem claim_C2_counterexample : ¬ claimC2Statement := by
  intro h
  exact absurd
    (h (fun _ => exMultipartDef) ⟨"water", [("north", "true")]⟩
      [mpRuleX, mpRuleY] rfl rfl)
    (by decide)

/-- C2 (amended to blocks outside the liquid bypass): for every such
block and multipart-only blockstate definition, `resolveBlockModel`
evaluates the rules in declaration order — no `when` always applies,
`OR` requires one nested condition map, otherwise the single map must
match, an entry matching when the block defines the property with a value
in the `|`-split expected set — each applying rule contributing its apply
model (index 0 of lists) in rule order; and on the spec's fixture a block
with `north=true, east=true` yields `X` then `Y`. -/
theorem claim_C2 :
    (∀ (getBS : String → BlockStateDefinition) (b : Block)
        (mp : List MultipartRule),
      ¬ liquidBlockName b.name →
      (getBS (stripMc b.name)).multipart = some mp →
      (getBS (stripMc b.name)).variants = none →
      resolveBlockModel getBS b = specMultipartModels b.properties mp) ∧
    resolveBlockModel (fun _ => exMultipartDef)
        ⟨"stone", [("north", "true"), ("east", "true")]⟩ =
      [⟨"X", none, none, none⟩, ⟨"Y", none, none, none⟩] := by
  constructor
  · intro getBS b mp hliq hm hv
    simp [resolveBlockModel, hliq, hv, hm, multipartModels_spec]
  · decide

/-- C2 witness: the fixture evaluated for a block matching only the `OR`
rule through `west=true`. -/
theorem claim_C2_witness :
    resolveBlockModel (fun _ => exMultipartDef) ⟨"stone", [("west", "true")]⟩ =
      specMultipartModels [("west", "true")] [mpRuleX, mpRuleY] :=
  claim_C2.1 (fun _ => exMultipartDef) ⟨"stone", [("west", "true")]⟩
    [mpRuleX, mpRuleY] (by decide) rfl rfl

/-! ## Claim C7: atlas packing round-trip and non-overlap -/

/-- Overlap is symmetric. -/
theorem rectsOverlap_comm (a b : Rect) :
    rectsOverlap a b ↔ rectsOverlap b a := by
  unfold rectsOverlap
  omega

/-- Overlap is monotone in sub-rectangles. -/
theorem rectsOverlap_mono (a' a b' b : Rect) (ha : rectSub a' a)
    (hb : rectSub b' b) (h : rectsOverlap a' b') : rectsOverlap a b := by
  unfold rectSub at ha hb
  unfold rectsOverlap at h ⊢
  omega

/-- The packer invariant of one insertion: everything disjoint from all
previous free rectangles stays disjoint from the placement and the new
free rectangles, and pairwise disjointness of the free rectangles extends
to the placement. -/
theorem insertNode_spec (w h : Nat) (n n' : AtlasNode) (px py : Nat)
    (hins : insertNode w h n = some (n', px, py)) :
    (∀ g : Rect, (∀ f ∈ freeRects n, ¬ rectsOverlap f g) →
        (∀ r ∈ (⟨px, py, w, h⟩ : Rect) :: freeRects n', ¬ rectsOverlap r g)) ∧
    (List.Pairwise (fun a b => ¬ rectsOverlap a b) (freeRects n) →
        List.Pairwise (fun a b => ¬ rectsOverlap a b)
          ((⟨px, py, w, h⟩ : Rect) :: freeRects n')) := by
  induction n generalizing n' px py with
  | free x y nw nh =>
      simp only [insertNode] at hins
      by_cases hc : w ≤ nw ∧ h ≤ nh
      · rw [if_pos hc] at hins
        obtain ⟨hc1, hc2⟩ := hc
        injection hins with hins1
        injection hins1 with hn hxy
        injection hxy with hx hy
        subst hn; subst hx; subst hy
        constructor
        · intro g hg r hr
          have hnode := hg ⟨x, y, nw, nh⟩ (by simp [freeRects])
          have hsub : rectSub r ⟨x, y, nw, nh⟩ := by
            simp [freeRects] at hr
            rcases hr with hr | hr | hr <;> subst hr <;>
              simp [rectSub] <;> omega
          intro hov
          exact hnode (rectsOverlap_mono _ _ _ _ hsub
            (by simp [rectSub]) hov)
        · intro _
          have h12 : ¬ rectsOverlap ⟨x, y, w, h⟩ ⟨x + w, y, nw - w, h⟩ := by
            simp only [rectsOverlap]; omega
          have h13 : ¬ rectsOverlap ⟨x, y, w, h⟩ ⟨x, y + h, nw, nh - h⟩ := by
            simp only [rectsOverlap]; omega
          have h23 : ¬ rectsOverlap ⟨x + w, y, nw - w, h⟩
              ⟨x, y + h, nw, nh - h⟩ := by
            simp only [rectsOverlap]; omega
          simp [freeRects, List.pairwise_cons, h12, h13, h23]
      · rw [if_neg hc] at hins
        exact Option.noConfusion hins
  | used x y nw nh r d ihr ihd =>
      simp only [insertNode] at hins
      cases hr : insertNode w h r with
      | some res =>
          obtain ⟨r', qx, qy⟩ := res
          rw [hr] at hins
          injection hins with hins1
          injection hins1 with hn hxy
          injection hxy with hx hy
          subst hn; subst hx; subst hy
          obtain ⟨ih1, ih2⟩ := ihr r' qx qy hr
          constructor
          · intro g hg a ha
            have hgr : ∀ f ∈ freeRects r, ¬ rectsOverlap f g := by
              intro f hf; exact hg f (by simp [freeRects, hf])
            have hgd : ∀ f ∈ freeRects d, ¬ rectsOverlap f g := by
              intro f hf; exact hg f (by simp [freeRects, hf])
            simp only [freeRects, List.mem_cons, List.mem_append] at ha
            rcases ha with ha | ha | ha
            · exact ih1 g hgr _ (by simp [ha])
            · exact ih1 g hgr _ (by simp [ha])
            · exact hgd _ ha
          · intro hPW
            simp only [freeRects, List.pairwise_append] at hPW
            obtain ⟨hPWr, hPWd, hcross⟩ := hPW
            have hplaced := ih2 hPWr
            rw [List.pairwise_cons] at hplaced
            obtain ⟨hph, hPWr'⟩ := hplaced
            simp only [freeRects, List.pairwise_cons, List.pairwise_append,
              List.mem_append]
            refine ⟨?_, hPWr', hPWd, ?_⟩
            · intro a ha
              rcases ha with ha | ha
              · exact hph a ha
              · have : ∀ f ∈ freeRects r, ¬ rectsOverlap f a := fun f hf =>
                  hcross f hf a ha
                exact ih1 a this _ (by simp)
            · intro a ha b hb
              have : ∀ f ∈ freeRects r, ¬ rectsOverlap f b := fun f hf =>
                hcross f hf b hb
              exact ih1 b this a (by simp [ha])
      | none =>
          rw [hr] at hins
          cases hd : insertNode w h d with
          | some res =>
              obtain ⟨d', qx, qy⟩ := res
              rw [hd] at hins
              injection hins with hins1
              injection hins1 with hn hxy
              injection hxy with hx hy
              subst hn; subst hx; subst hy
              obtain ⟨ih1, ih2⟩ := ihd d' qx qy hd
              constructor
              · intro g hg a ha
                have hgr : ∀ f ∈ freeRects r, ¬ rectsOverlap f g := by
                  intro f hf; exact hg f (by simp [freeRects, hf])
                have hgd : ∀ f ∈ freeRects d, ¬ rectsOverlap f g := by
                  intro f hf; exact hg f (by simp [freeRects, hf])
                simp only [freeRects, List.mem_cons, List.mem_append] at ha
                rcases ha with ha | ha | ha
                · exact ih1 g hgd _ (by simp [ha])
                · exact hgr _ ha
                · exact ih1 g hgd _ (by simp [ha])
              · intro hPW
                simp only [freeRects, List.pairwise_append] at hPW
                obtain ⟨hPWr, hPWd, hcross⟩ := hPW
                have hplaced := ih2 hPWd
                rw [List.pairwise_cons] at hplaced
                obtain ⟨hph, hPWd'⟩ := hplaced
                simp only [freeRects, List.pairwise_cons, List.pairwise_append,
                  List.mem_append]
                have hcross' : ∀ b ∈ freeRects d, ∀ a ∈ freeRects r,
                    ¬ rectsOverlap b a := by
                  intro b hb a ha hov
                  exact hcross a ha b hb ((rectsOverlap_comm _ _).mpr hov)
                refine ⟨?_, hPWr, hPWd', ?_⟩
                · intro a ha
                  rcases ha with ha | ha
                  · have : ∀ f ∈ freeRects d, ¬ rectsOverlap f a := fun f hf =>
                      hcross' f hf a ha
                    exact ih1 a this _ (by simp)
                  · exact hph a ha
                · intro a ha b hb
                  have : ∀ f ∈ freeRects d, ¬ rectsOverlap f a := fun f hf =>
                    hcross' f hf a ha
                  intro hov
                  exact ih1 a this b (by simp [hb])
                    ((rectsOverlap_comm _ _).mp hov)
          | none =>
              rw [hd] at hins
              exact Option.noConfusion hins

/-- The packing loop keeps all reserved (padded) placements pairwise
disjoint, and disjoint from anything disjoint from the tree's free
rectangles. -/
theorem packGo_spec (pad : Nat) (ts : List TextureInfo) :
    ∀ (tree : AtlasNode),
    List.Pairwise (fun a b => ¬ rectsOverlap a b) (freeRects tree) →
    (List.Pairwise (fun a b => ¬ rectsOverlap a b)
        ((packTexturesGo pad tree ts).map (paddedRect pad)) ∧
     ∀ r ∈ (packTexturesGo pad tree ts).map (paddedRect pad),
       ∀ g, (∀ f ∈ freeRects tree, ¬ rectsOverlap f g) →
         ¬ rectsOverlap r g) := by
  induction ts with
  | nil => intro tree hPW; simp [packTexturesGo]
  | cons t rest ih =>
      intro tree hPW
      cases hins : insertNode (t.width + pad) (t.height + pad) tree with
      | none =>
          simp only [packTexturesGo, hins]
          exact ih tree hPW
      | some res =>
          obtain ⟨tree', px, py⟩ := res
          obtain ⟨hs1, hs2⟩ :=
            insertNode_spec (t.width + pad) (t.height + pad) tree tree' px py
              hins
          have hcons := hs2 hPW
          rw [List.pairwise_cons] at hcons
          obtain ⟨hhead, hPW'⟩ := hcons
          obtain ⟨ih1, ih2⟩ := ih tree' hPW'
          have hpadded : paddedRect pad ⟨t.path, t.width, t.height, px, py⟩ =
              (⟨px, py, t.width + pad, t.height + pad⟩ : Rect) := rfl
          simp only [packTexturesGo, hins, List.map_cons, hpadded]
          constructor
          · rw [List.pairwise_cons]
            refine ⟨?_, ih1⟩
            intro b hb
            have hno : ∀ f ∈ freeRects tree',
                ¬ rectsOverlap f
                  (⟨px, py, t.width + pad, t.height + pad⟩ : Rect) := by
              intro f hf hov
              exact hhead f hf ((rectsOverlap_comm _ _).mpr hov)
            intro hov
            exact ih2 b hb _ hno ((rectsOverlap_comm _ _).mp hov)
          · intro r hr g hg
            rcases List.mem_cons.mp hr with hr | hr
            · subst hr
              exact hs1 g hg _ (by simp)
            · refine ih2 r hr g ?_
              intro f hf
              exact hs1 g hg f (by simp [hf])

/-- The packed textures carry a subsequence of the input paths. -/
theorem packGo_paths_sublist (pad : Nat) (ts : List TextureInfo)
    (tree : AtlasNode) :
    ((packTexturesGo pad tree ts).map PackedTexture.path).Sublist
      (ts.map TextureInfo.path) := by
  induction ts generalizing tree with
  | nil => simp [packTexturesGo]
  | cons t rest ih =>
      cases hins : insertNode (t.width + pad) (t.height + pad) tree with
      | none =>
          simp only [packTexturesGo, hins, List.map_cons]
          exact (ih tree).cons _
      | some res =>
          obtain ⟨tree', px, py⟩ := res
          simp only [packTexturesGo, hins, List.map_cons]
          exact (ih tree').cons₂ _

/-- A lookup missing the first table continues in the second. -/
theorem lookup_append_none {α : Type} (k : String) (m m2 : List (String × α))
    (h : List.lookup k m = none) :
    List.lookup k (m ++ m2) = List.lookup k m2 := by
  induction m with
  | nil => simp
  | cons p rest ih =>
      by_cases hk : k == p.1
      · simp [List.lookup, hk] at h
      · simp only [List.lookup, List.cons_append] at h ⊢
        rw [show (k == p.1) = false from by simpa using hk] at h ⊢
        exact ih h

/-- With fresh, duplicate-free paths, the `Map.set` fold of
`createAtlasCanvas` appends one entry per placed texture in order. -/
theorem canvas_fold_spec (S : Nat) (packed : List PackedTexture)
    (m : List (String × UVRect))
    (hfresh : ∀ t ∈ packed, List.lookup t.path m = none)
    (hnd : (packed.map PackedTexture.path).Nodup) :
    packed.foldl (fun m t => jsMapSet m t.path (uvRectOf S t)) m =
      m ++ packed.map (fun t => (t.path, uvRectOf S t)) := by
  induction packed generalizing m with
  | nil => simp
  | cons t rest ih =>
      have ht : List.lookup t.path m = none := hfresh t (by simp)
      have hset : jsMapSet m t.path (uvRectOf S t) =
          m ++ [(t.path, uvRectOf S t)] := by
        simp [jsMapSet, ht]
      rw [List.foldl_cons, hset]
      rw [List.map_cons, List.nodup_cons] at hnd
      have hfresh' : ∀ u ∈ rest,
          List.lookup u.path (m ++ [(t.path, uvRectOf S t)]) = none := by
        intro u hu
        rw [lookup_append_none _ _ _ (hfresh u (by simp [hu]))]
        have hne : (u.path == t.path) = false := by
          simp only [beq_eq_false_iff_ne, ne_eq]
          intro he
          exact hnd.1 (he ▸ List.mem_map_of_mem PackedTexture.path hu)
        simp [List.lookup, hne]
      rw [ih _ hfresh' hnd.2]
      simp

/-- Looking up a placed path in the per-texture entry list finds its own
entry. -/
theorem lookup_map_entry (f : PackedTexture → UVRect)
    (packed : List PackedTexture) (t : PackedTexture)
    (hnd : (packed.map PackedTexture.path).Nodup) (ht : t ∈ packed) :
    List.lookup t.path (packed.map (fun u => (u.path, f u))) = some (f t) := by
  induction packed with
  | nil => simp at ht
  | cons u rest ih =>
      rw [List.map_cons, List.nodup_cons] at hnd
      rcases List.mem_cons.mp ht with ht | ht
      · subst ht
        simp [List.lookup]
      · have hne : t.path ≠ u.path := by
          intro he
          exact hnd.1 (he ▸ List.mem_map_of_mem PackedTexture.path ht)
        simp only [List.map_cons, List.lookup]
        rw [show (t.path == u.path) = false from by simpa using hne]
        exact ih hnd.2 ht

/-- A texture's pixel rectangle lies inside its padded reservation. -/
theorem pixelRect_sub_padded (pad : Nat) (t : PackedTexture) :
    rectSub (pixelRect t) (paddedRect pad t) := by
  simp [rectSub, pixelRect, paddedRect]

/-- C7: for every set of textures (with distinct paths, as a set of
texture files has) whose placements succeed in the packer, the UV rect
recorded for each placed path equals its pixel placement and original
dimensions divided by the atlas size, and no two placed textures' pixel
rectangles overlap on the canvas. -/
theorem claim_C7 (atlasSize pad : Nat) (textures : List TextureInfo)
    (hnd : (textures.map TextureInfo.path).Nodup) :
    (∀ t ∈ packTextures atlasSize pad textures,
       List.lookup t.path
           (canvasUVMap atlasSize (packTextures atlasSize pad textures)) =
         some (uvRectOf atlasSize t)) ∧
    List.Pairwise (fun a b => ¬ rectsOverlap (pixelRect a) (pixelRect b))
      (packTextures atlasSize pad textures) := by
  have hndp : ((packTextures atlasSize pad textures).map
      PackedTexture.path).Nodup :=
    (packGo_paths_sublist pad textures (.free 0 0 atlasSize atlasSize)).nodup
      hnd
  constructor
  · intro t ht
    unfold canvasUVMap
    rw [canvas_fold_spec atlasSize _ [] (by simp) hndp]
    rw [List.nil_append]
    exact lookup_map_entry (uvRectOf atlasSize) _ t hndp ht
  · have hPW := (packGo_spec pad textures (.free 0 0 atlasSize atlasSize)
      (by simp [freeRects])).1
    rw [List.pairwise_map] at hPW
    refine hPW.imp ?_
    intro a b hab hov
    exact hab (rectsOverlap_mono _ _ _ _ (pixelRect_sub_padded pad a)
      (pixelRect_sub_padded pad b) hov)

/-- C7 witness: two small textures in a 16-pixel atlas. -/
theorem claim_C7_witness :
    (∀ t ∈ packTextures 16 1 [⟨"a", 2, 2⟩, ⟨"b", 3, 1⟩],
       List.lookup t.path
           (canvasUVMap 16 (packTextures 16 1 [⟨"a", 2, 2⟩, ⟨"b", 3, 1⟩])) =
         some (uvRectOf 16 t)) ∧
    List.Pairwise (fun a b => ¬ rectsOverlap (pixelRect a) (pixelRect b))
      (packTextures 16 1 [⟨"a", 2, 2⟩, ⟨"b", 3, 1⟩]) :=
  claim_C7 16 1 [⟨"a", 2, 2⟩, ⟨"b", 3, 1⟩] (by decide)

/-! ## Claim C8: property-order insensitivity of variant resolution -/
/-- Head-tail characterization of the lexicographic comparison. -/
theorem charListLe_cons_iff (x y : Char) (xs ys : List Char) :
    charListLe (x :: xs) (y :: ys) = true ↔
      x.toNat < y.toNat ∨ (x.toNat = y.toNat ∧ charListLe xs ys = true) := by
  simp only [charListLe]
  split_ifs with h1 h2
  · simp [h1]
  · simp [h1, h2]
    omega
  · have : x.toNat = y.toNat := by omega
    simp [this, h1, h2]

/-- Characters with equal code points are equal. -/
theorem char_toNat_inj {a b : Char} (h : a.toNat = b.toNat) : a = b := by
  apply Char.ext
  exact UInt32.toNat.inj h

/-- The lexicographic comparison is total. -/
theorem charListLe_total : ∀ (a b : List Char),
    charListLe a b = true ∨ charListLe b a = true
  | [], _ => Or.inl rfl
  | _ :: _, [] => Or.inr rfl
  | x :: xs, y :: ys => by
      rcases charListLe_total xs ys with h | h
      · by_cases h1 : x.toNat < y.toNat
        · exact Or.inl ((charListLe_cons_iff _ _ _ _).mpr (Or.inl h1))
        · by_cases h2 : y.toNat < x.toNat
          · exact Or.inr ((charListLe_cons_iff _ _ _ _).mpr (Or.inl h2))
          · exact Or.inl ((charListLe_cons_iff _ _ _ _).mpr
              (Or.inr ⟨by omega, h⟩))
      · by_cases h2 : y.toNat < x.toNat
        · exact Or.inr ((charListLe_cons_iff _ _ _ _).mpr (Or.inl h2))
        · by_cases h1 : x.toNat < y.toNat
          · exact Or.inl ((charListLe_cons_iff _ _ _ _).mpr (Or.inl h1))
          · exact Or.inr ((charListLe_cons_iff _ _ _ _).mpr
              (Or.inr ⟨by omega, h⟩))

/-- The lexicographic comparison is transitive. -/
theorem charListLe_trans : ∀ (a b c : List Char),
    charListLe a b = true → charListLe b c = true → charListLe a c = true
  | [], _, _, _, _ => rfl
  | _ :: _, [], _, hab, _ => by simp [charListLe] at hab
  | _ :: _, _ :: _, [], _, hbc => by simp [charListLe] at hbc
  | x :: xs, y :: ys, z :: zs, hab, hbc => by
      rcases (charListLe_cons_iff _ _ _ _).mp hab with h1 | ⟨h1, h1'⟩ <;>
        rcases (charListLe_cons_iff _ _ _ _).mp hbc with h2 | ⟨h2, h2'⟩
      · exact (charListLe_cons_iff _ _ _ _).mpr (Or.inl (by omega))
      · exact (charListLe_cons_iff _ _ _ _).mpr (Or.inl (by omega))
      · exact (charListLe_cons_iff _ _ _ _).mpr (Or.inl (by omega))
      · exact (charListLe_cons_iff _ _ _ _).mpr
          (Or.inr ⟨by omega, charListLe_trans xs ys zs h1' h2'⟩)

/-- The lexicographic comparison is antisymmetric. -/
theorem charListLe_antisymm : ∀ (a b : List Char),
    charListLe a b = true → charListLe b a = true → a = b
  | [], [], _, _ => rfl
  | [], _ :: _, _, hba => by simp [charListLe] at hba
  | _ :: _, [], hab, _ => by simp [charListLe] at hab
  | x :: xs, y :: ys, hab, hba => by
      rcases (charListLe_cons_iff _ _ _ _).mp hab with h1 | ⟨h1, h1'⟩ <;>
        rcases (charListLe_cons_iff _ _ _ _).mp hba with h2 | ⟨h2, h2'⟩ <;>
          try omega
      rw [char_toNat_inj h1, charListLe_antisymm xs ys h1' h2']

instance : IsTotal String strLeProp :=
  ⟨fun a b => charListLe_total a.data b.data⟩

instance : IsTrans String strLeProp :=
  ⟨fun a b c => charListLe_trans a.data b.data c.data⟩

instance : IsAntisymm String strLeProp :=
  ⟨fun a b hab hba => by
    have h := charListLe_antisymm a.data b.data hab hba
    cases a; cases b; exact congrArg String.mk h⟩

/-- `sortStr` sorts. -/
theorem sortStr_sorted (l : List String) :
    List.Pairwise strLeProp (sortStr l) :=
  List.sorted_insertionSort strLeProp l

/-- Sorting is determined by the multiset of elements: permuted inputs
sort identically. -/
theorem sortStr_perm_eq (l1 l2 : List String) (h : l1.Perm l2) :
    sortStr l1 = sortStr l2 := by
  exact @List.eq_of_perm_of_sorted String strLeProp _ _ _
    (((List.perm_insertionSort strLeProp l1).trans h).trans
      (List.perm_insertionSort strLeProp l2).symm)
    (sortStr_sorted l1) (sortStr_sorted l2)


/-- `List.all` is permutation-invariant. -/
theorem all_perm (f : α → Bool) {l1 l2 : List α} (h : l1.Perm l2) :
    l1.all f = l2.all f := by
  cases hb : l2.all f with
  | true =>
      rw [List.all_eq_true] at hb ⊢
      intro x hx
      exact hb x (h.mem_iff.mp hx)
  | false =>
      rw [← Bool.not_eq_true] at hb ⊢
      rw [List.all_eq_true] at hb ⊢
      intro hall
      exact hb (fun x hx => hall x (h.mem_iff.mpr hx))

/-- The match flag of `evalKey` is permutation-invariant, and so is the
match count on conflict-free keys. -/
theorem evalKey_perm (vp : List (String × Option String))
    {props1 props2 : List (String × String)} (h : props1.Perm props2) :
    (evalKey vp props1).1 = (evalKey vp props2).1 ∧
    ((evalKey vp props1).1 = true →
      (evalKey vp props1).2 = (evalKey vp props2).2) := by
  have hfst : (evalKey vp props1).1 = (evalKey vp props2).1 := by
    rw [evalKey_fst, evalKey_fst]
    exact all_perm _ h
  refine ⟨hfst, ?_⟩
  intro h1
  rw [evalKey_snd vp props1 h1, evalKey_snd vp props2 (hfst ▸ h1)]
  exact h.countP_eq _

/-- The best-match fold step is permutation-invariant in the block's
properties. -/
theorem bestKeyStep_perm {props1 props2 : List (String × String)}
    (h : props1.Perm props2) : bestKeyStep props1 = bestKeyStep props2 := by
  funext acc k
  unfold bestKeyStep
  by_cases hk : k = ""
  · simp [hk]
  · obtain ⟨h1, h2⟩ := evalKey_perm (parseVariantKey k) h
    simp only [hk, if_neg, ite_false]
    cases hb : (evalKey (parseVariantKey k) props2).1 with
    | false =>
        rw [hb] at h1
        simp [h1, hb, hk]
    | true =>
        rw [hb] at h1
        simp [hk, h1, hb, h2 h1]

/-- The best variant key is permutation-invariant. -/
theorem bestVariantKey_perm (vs : List (String × VariantVal))
    {props1 props2 : List (String × String)} (h : props1.Perm props2) :
    bestVariantKey vs props1 = bestVariantKey vs props2 := by
  unfold bestVariantKey
  rw [bestKeyStep_perm h]

/-- Filtering and formatting the properties preserves permutations. -/
theorem filteredProps_perm (vs : List (String × VariantVal))
    {props1 props2 : List (String × String)} (h : props1.Perm props2) :
    (filteredProps vs props1).Perm (filteredProps vs props2) :=
  (h.filter _).map _

/-- The built variant key is permutation-invariant (the sort cancels the
insertion order). -/
theorem buildVariantKey_perm (vs : List (String × VariantVal))
    {props1 props2 : List (String × String)} (h : props1.Perm props2) :
    buildVariantKey vs props1 = buildVariantKey vs props2 := by
  rw [buildVariantKey_spec, buildVariantKey_spec]
  unfold specVariantKey
  rw [sortStr_perm_eq _ _ (filteredProps_perm vs h)]

/-- Association lookup with duplicate-free keys is permutation-invariant. -/
theorem lookup_perm_nodup {α : Type} (k : String)
    {l1 l2 : List (String × α)} (h : l1.Perm l2)
    (hnd : (l1.map Prod.fst).Nodup) :
    List.lookup k l1 = List.lookup k l2 := by
  induction h with
  | nil => rfl
  | cons p h ih =>
      rw [List.map_cons, List.nodup_cons] at hnd
      simp only [List.lookup]
      cases k == p.1 with
      | true => rfl
      | false => exact ih hnd.2
  | swap p q l =>
      have hne : q.1 ≠ p.1 := by
        rw [List.map_cons, List.map_cons, List.nodup_cons] at hnd
        intro he
        exact hnd.1 (by simp [he])
      by_cases hkq : k = q.1
      · have h1 : (k == q.1) = true := beq_iff_eq.mpr hkq
        have h2 : (k == p.1) = false :=
          beq_eq_false_iff_ne.mpr (by rw [hkq]; exact hne)
        simp [List.lookup, h1, h2]
      · by_cases hkp : k = p.1
        · have h1 : (k == p.1) = true := beq_iff_eq.mpr hkp
          have h2 : (k == q.1) = false := beq_eq_false_iff_ne.mpr hkq
          simp [List.lookup, h1, h2]
        · have h1 : (k == p.1) = false := beq_eq_false_iff_ne.mpr hkp
          have h2 : (k == q.1) = false := beq_eq_false_iff_ne.mpr hkq
          simp [List.lookup, h1, h2]
  | trans h1 h2 ih1 ih2 =>
      rw [ih1 hnd]
      refine ih2 ?_
      have := (h1.map Prod.fst).nodup_iff
      exact this.mp hnd


/-- Splitting around a separator that occurs once after a clean prefix. -/
theorem splitChar_append_sep (c : Char) (l1 l2 : List Char) (h : c ∉ l1) :
    splitChar c (l1 ++ c :: l2) = l1 :: splitChar c l2 := by
  induction l1 with
  | nil => simp [splitChar]
  | cons x xs ih =>
      have hx : ¬ (x = c) := fun he => h (by simp [he])
      have hxs : c ∉ xs := fun hm => h (by simp [hm])
      simp only [List.cons_append, splitChar, hx, if_false]
      simp only [List.append_eq]
      rw [ih hxs]


/-- A literal `name=value` key built from a clean pair parses back to
exactly that pair. -/
theorem parseVariantKey_single (k v : String)
    (h1 : ('=' : Char) ∉ k.data) (h2 : (',' : Char) ∉ k.data)
    (h3 : ('=' : Char) ∉ v.data) (h4 : (',' : Char) ∉ v.data) :
    parseVariantKey (k ++ "=" ++ v) = [(k, some v)] := by
  have hdata : (k ++ "=" ++ v).data = k.data ++ '=' :: v.data := by
    rw [String.data_append, String.data_append, List.append_assoc]
    rfl
  have hnoc : (',' : Char) ∉ k.data ++ '=' :: v.data := by
    intro hm
    rcases List.mem_append.mp hm with hm | hm
    · exact h2 hm
    · rcases List.mem_cons.mp hm with hm | hm
      · exact absurd hm (by decide)
      · exact h4 hm
  unfold parseVariantKey jsSplit
  rw [hdata, splitChar_single _ _ hnoc]
  simp only [List.map_cons, List.map_nil]
  unfold parseVariantProp jsSplit
  have : (⟨k.data ++ '=' :: v.data⟩ : String).data = k.data ++ '=' :: v.data := rfl
  rw [this, splitChar_append_sep _ _ _ h1, splitChar_single _ _ h3]
  rfl

/-- The best-match fold never forgets a non-empty accumulator key. -/
theorem bestFold_ne_empty (props : List (String × String)) :
    ∀ (keys : List String) (acc : String × Int), acc.1 ≠ "" →
      (keys.foldl (bestKeyStep props) acc).1 ≠ "" := by
  intro keys
  induction keys with
  | nil => intro acc h; exact h
  | cons k rest ih =>
      intro acc h
      rw [List.foldl_cons]
      apply ih
      unfold bestKeyStep
      by_cases hk : k = ""
      · simpa [hk] using h
      · by_cases hcond : (evalKey (parseVariantKey k) props).1 = true ∧
            ((evalKey (parseVariantKey k) props).2 : Int) > acc.2
        · simpa [hk, hcond] using hk
        · simpa [hk, hcond] using h

/-- When the best-match fold ends empty, every non-empty key failed the
validity test. -/
theorem bestFoldEmpty_invalid (props : List (String × String)) :
    ∀ (keys : List String),
      (keys.foldl (bestKeyStep props) ("", -1)).1 = "" →
      ∀ k ∈ keys, k ≠ "" → (evalKey (parseVariantKey k) props).1 = false := by
  intro keys
  induction keys with
  | nil => intro _ k hk; simp at hk
  | cons k0 rest ih =>
      intro hfold k hk hkne
      rw [List.foldl_cons] at hfold
      by_cases hk0 : k0 = ""
      · have hstep : bestKeyStep props ("", -1) k0 = ("", -1) := by
          simp [bestKeyStep, hk0]
        rw [hstep] at hfold
        rcases List.mem_cons.mp hk with he | hm
        · exact absurd (he ▸ hk0) hkne
        · exact ih hfold k hm hkne
      · cases hval : (evalKey (parseVariantKey k0) props).1 with
        | true =>
            have hgt : ((evalKey (parseVariantKey k0) props).2 : Int) > -1 := by
              have := Int.ofNat_nonneg (evalKey (parseVariantKey k0) props).2
              omega
            have hstep : bestKeyStep props ("", -1) k0 =
                (k0, ((evalKey (parseVariantKey k0) props).2 : Int)) := by
              simp [bestKeyStep, hk0, hval, hgt]
            rw [hstep] at hfold
            exact absurd hfold
              (bestFold_ne_empty props rest
                (k0, ((evalKey (parseVariantKey k0) props).2 : Int)) hk0)
        | false =>
            have hstep : bestKeyStep props ("", -1) k0 = ("", -1) := by
              simp [bestKeyStep, hk0, hval]
            rw [hstep] at hfold
            rcases List.mem_cons.mp hk with he | hm
            · exact he ▸ hval
            · exact ih hfold k hm hkne

/-- A successful lookup's key is among the table's keys. -/
theorem lookup_some_mem_keys {α : Type} (k : String) (l : List (String × α))
    (v : α) (h : List.lookup k l = some v) : k ∈ l.map Prod.fst := by
  induction l with
  | nil => simp at h
  | cons p rest ih =>
      simp only [List.lookup] at h
      cases hk : k == p.1 with
      | true => simp [beq_iff_eq.mp hk]
      | false =>
          rw [hk] at h
          simp [ih h]


/-- In a duplicate-free property map, entries are determined by their
name. -/
theorem nodup_key_eq {l : List (String × String)}
    (hnd : (l.map Prod.fst).Nodup) {p q : String × String}
    (hp : p ∈ l) (hq : q ∈ l) (he : q.1 = p.1) : q = p := by
  induction l with
  | nil => simp at hp
  | cons a rest ih =>
      rw [List.map_cons, List.nodup_cons] at hnd
      rcases List.mem_cons.mp hp with hp1 | hp1
      · rcases List.mem_cons.mp hq with hq1 | hq1
        · rw [hp1, hq1]
        · subst hp1
          exact absurd (he ▸ List.mem_map_of_mem Prod.fst hq1) hnd.1
      · rcases List.mem_cons.mp hq with hq1 | hq1
        · subst hq1
          exact absurd (List.mem_map_of_mem Prod.fst hp1)
            (by rw [← he]; exact hnd.1)
        · exact ih hnd.2 hp1 hq1

/-- The single-property loop misses when every literal key lookup
misses. -/
theorem singlePropVariant_none_of (vs : List (String × VariantVal))
    (props : List (String × String))
    (h : ∀ p ∈ props, List.lookup (p.1 ++ "=" ++ p.2) vs = none) :
    singlePropVariant vs props = none := by
  induction props with
  | nil => rfl
  | cons p rest ih =>
      simp only [singlePropVariant, h p (by simp)]
      exact ih (fun q hq => h q (by simp [hq]))

/-- With clean, duplicate-free properties, a failed best partial match
implies the single-property fallback also misses: any literal
`name=value` hit would itself have been a valid best-match candidate. -/
theorem singleProp_none (vs : List (String × VariantVal))
    (props : List (String × String))
    (hclean : ∀ p ∈ props, cleanPair p)
    (hnd : (props.map Prod.fst).Nodup)
    (hbest : bestVariantKey vs props = "") :
    singlePropVariant vs props = none := by
  apply singlePropVariant_none_of
  intro p hp
  cases hl : List.lookup (p.1 ++ "=" ++ p.2) vs with
  | none => rfl
  | some hv =>
      exfalso
      obtain ⟨hc1, hc2, hc3, hc4⟩ := hclean p hp
      have hparse := parseVariantKey_single p.1 p.2 hc1 hc2 hc3 hc4
      have hmem : (p.1 ++ "=" ++ p.2) ∈ vs.map Prod.fst :=
        lookup_some_mem_keys _ _ _ hl
      have hne : (p.1 ++ "=" ++ p.2) ≠ "" := by
        intro he
        have hd : (p.1 ++ "=" ++ p.2).data = [] := by rw [he]
        rw [String.data_append, String.data_append, List.append_assoc] at hd
        simp at hd
      have hinv := bestFoldEmpty_invalid props _ hbest _ hmem hne
      rw [hparse] at hinv
      have hvalid : (evalKey [(p.1, some p.2)] props).1 = true := by
        rw [evalKey_fst, List.all_eq_true]
        intro q hq
        by_cases hpq : p.1 = q.1
        · have hqp : q = p := nodup_key_eq hnd hp hq hpq.symm
          subst hqp
          simp [conflictsB, List.find?, hpq]
        · simp [conflictsB, List.find?, hpq]
      rw [hvalid] at hinv
      exact Bool.noConfusion hinv

/-- Lookup of a present key succeeds. -/
theorem lookup_isSome_of_mem_keys {α : Type} (k : String)
    (l : List (String × α)) (h : k ∈ l.map Prod.fst) :
    (List.lookup k l).isSome := by
  induction l with
  | nil => simp at h
  | cons p rest ih =>
      rw [List.map_cons] at h
      rcases List.mem_cons.mp h with he | hm
      · simp [List.lookup, beq_iff_eq.mpr he]
      · cases hk : k == p.1 with
        | true => simp [List.lookup, hk]
        | false =>
            simp only [List.lookup, hk]
            exact ih hm

/-- A non-empty best variant key is a real key of the definition. -/
theorem bestKey_lookup_isSome (vs : List (String × VariantVal))
    (props : List (String × String)) (h : bestVariantKey vs props ≠ "") :
    (List.lookup (bestVariantKey vs props) vs).isSome := by
  rw [bestVariantKey_spec] at h ⊢
  cases hb : specBestKey vs props with
  | none => rw [hb] at h; simp at h
  | some k =>
      have hm := pickFirstMax_mem _ _ _ hb
      simpa using lookup_isSome_of_mem_keys _ _ (List.mem_filter.mp hm).1

/-- The full variant-selection cascade is insensitive to the insertion
order of clean, duplicate-free block properties. -/
theorem findVariant_perm (vs : List (String × VariantVal))
    {props1 props2 : List (String × String)} (h : props1.Perm props2)
    (hnd : (props1.map Prod.fst).Nodup)
    (hclean : ∀ p ∈ props1, cleanPair p) :
    findVariant vs props1 = findVariant vs props2 := by
  have hnd2 : (props2.map Prod.fst).Nodup :=
    ((h.map Prod.fst).nodup_iff).mp hnd
  have hclean2 : ∀ p ∈ props2, cleanPair p := fun p hp =>
    hclean p (h.mem_iff.mpr hp)
  unfold findVariant
  rw [buildVariantKey_perm vs h]
  cases h1 : List.lookup (buildVariantKey vs props2) vs with
  | some v => rfl
  | none =>
      cases h2 : List.lookup "" vs with
      | some v => rfl
      | none =>
          rw [bestVariantKey_perm vs h]
          by_cases hbk : bestVariantKey vs props2 = ""
          · simp only [hbk, ne_eq, not_true_eq_false, ite_false]
            rw [singleProp_none vs props1 hclean hnd
                (by rw [bestVariantKey_perm vs h]; exact hbk),
              singleProp_none vs props2 hclean2 hnd2 hbk]
          · have hs := bestKey_lookup_isSome vs props2 hbk
            cases hl : List.lookup (bestVariantKey vs props2) vs with
            | some v => simp only [hbk, ne_eq, not_false_eq_true, ite_true, hl]
            | none => rw [hl] at hs; simp at hs




/-- C8 counterexample: with variant keys `a=x=1` and `b=y=1` and block
properties `a = "x=1"`, `b = "y=1"` (values containing `=`), the two
insertion orders resolve to different models (`A` versus `B`) through the
single-property fallback, so the claim as stated fails. -/
theorem claim_C8_counterexample : ¬ claimC8Statement := by
  intro h
  exact absurd
    (h (fun _ => c8Def) ⟨"stone", [("a", "x=1"), ("b", "y=1")]⟩
      ⟨"stone", [("b", "y=1"), ("a", "x=1")]⟩ c8Variants rfl rfl rfl
      (by decide) (by decide))
    (by decide)

/-- C8 (amended to properties whose names and values avoid the `=` and
`,` metacharacters, as all real blockstate properties do): the filtered
variant key is always lexicographically sorted and is the comma-join of
the sorted filtered `name=value` parts; and for every variants-only
blockstate definition, resolving the same duplicate-free property set
yields identical model paths and rotations regardless of the insertion
order of the properties. -/
theorem claim_C8 :
    (∀ (vs : List (String × VariantVal)) (props : List (String × String)),
        List.Pairwise strLeProp (sortStr (filteredProps vs props)) ∧
        buildVariantKey vs props =
          joinComma (sortStr (filteredProps vs props))) ∧
    (∀ (getBS : String → BlockStateDefinition) (b1 b2 : Block)
        (vs : List (String × VariantVal)),
      (getBS (stripMc b1.name)).variants = some vs →
      (getBS (stripMc b1.name)).multipart = none →
      b1.name = b2.name →
      (b1.properties.map Prod.fst).Nodup →
      (∀ p ∈ b1.properties, cleanPair p) →
      b1.properties.Perm b2.properties →
      resolveBlockModel getBS b1 = resolveBlockModel getBS b2) := by
  constructor
  · intro vs props
    refine ⟨sortStr_sorted _, ?_⟩
    cases props with
    | nil => rfl
    | cons p rest => simp [buildVariantKey]
  · intro getBS b1 b2 vs hv hm hname hnd hclean hperm
    by_cases hliq : liquidBlockName b1.name
    · have hliq2 : liquidBlockName b2.name := hname ▸ hliq
      simp only [resolveBlockModel, hliq, hliq2, if_pos]
      unfold createLiquidModelData
      rw [hname, lookup_perm_nodup "level" hperm hnd]
    · have hliq2 : ¬ liquidBlockName b2.name := hname ▸ hliq
      have hv2 : (getBS (stripMc b2.name)).variants = some vs := by
        rw [← hname]; exact hv
      have hm2 : (getBS (stripMc b2.name)).multipart = none := by
        rw [← hname]; exact hm
      simp only [resolveBlockModel, hliq, hliq2, if_neg, ite_false, hv, hm,
        hv2, hm2]
      unfold variantModels
      rw [findVariant_perm vs hperm hnd hclean]

/-- C8 witness: two insertion orders of the same property set resolve
identically on the variants fixture. -/
theorem claim_C8_witness :
    resolveBlockModel (fun _ => exVariantsDef)
        ⟨"stone", [("facing", "north"), ("open", "true")]⟩ =
      resolveBlockModel (fun _ => exVariantsDef)
        ⟨"stone", [("open", "true"), ("facing", "north")]⟩ :=
  claim_C8.2 (fun _ => exVariantsDef) _ _ exVariants rfl rfl rfl
    (by decide) (by decide) (by decide)


end Cubane
